import Mathlib

/-!
Verification development for the DermaIQ_Database_Scraping repository.

Strings are embedded as lists of characters (abbreviation Str below).  Each
Python regular-expression operation used by the cleanup scripts is embedded as
a dedicated scanning function whose behaviour follows the semantics of
Python's re module (leftmost match, greedy and lazy quantifier order,
IGNORECASE restricted to the ASCII letters that occur in the patterns,
DOTALL where the source sets it).  The pipelines of
batch_fix_ingredients.py, fix_ingredients_list.py, final_fix_ingredients.py
and cosmetics_scraper.py are then assembled from these pieces exactly as in
the source.
-/

abbrev Str := List Char

/-- Python str whitespace, restricted to the ASCII whitespace characters
(the only whitespace characters considered in this development). -/
def pySpace (c : Char) : Bool :=
  c == ' ' || c == '\t' || c == '\n' || c == '\r' || c == '\x0B' || c == '\x0C'

/-- ASCII alphanumeric, the character class a-zA-Z0-9 of the cleanup regexes. -/
def isAsciiAlnum (c : Char) : Bool :=
  ('a' ≤ c && c ≤ 'z') || ('A' ≤ c && c ≤ 'Z') || ('0' ≤ c && c ≤ '9')

/-- Word character for the regex word boundary b: ASCII alphanumerics,
the underscore, and the accented letter appearing in the source patterns. -/
def isWordChar (c : Char) : Bool :=
  isAsciiAlnum c || c == '_' || c == 'é' || c == 'É'

/-- Case folding for the IGNORECASE flag of the source regexes: ASCII
letters fold via toLower, and the accented letter of the ingrédients
pattern folds to its lowercase form. -/
def foldCI (c : Char) : Char :=
  if c = 'É' then 'é' else c.toLower

/-- Case-insensitive character comparison under foldCI. -/
def chEqCI (a b : Char) : Bool :=
  foldCI a == foldCI b

/-- Case-insensitive literal at the start of the text: startsCI pat t is true
when t begins with the literal pat up to ASCII case. -/
def startsCI : Str → Str → Bool
  | [], _ => true
  | _ :: _, [] => false
  | p :: ps, c :: cs => chEqCI c p && startsCI ps cs

/-- Case-insensitive substring test, the Python idiom pat in s.lower()
for a lowercase literal pat. -/
def containsCI (pat : Str) : Str → Bool
  | [] => startsCI pat []
  | c :: cs => startsCI pat (c :: cs) || containsCI pat cs

/-- Does the text start with a word character (used for boundary checks after
a matched literal)? -/
def wordAfter : Str → Bool
  | [] => false
  | c :: _ => isWordChar c

/-- Remove a trailing run of characters satisfying p, keeping everything
before it (helper for Python strip and for the trailing-symbol regex). -/
def dropTrailing (p : Char → Bool) : Str → Str
  | [] => []
  | c :: rest =>
    match dropTrailing p rest with
    | [] => if p c then [] else [c]
    | r => c :: r

/-- Python str.strip(): remove leading and trailing whitespace. -/
def pyStrip (t : Str) : Str :=
  dropTrailing pySpace (t.dropWhile pySpace)

/-- The substitution re.sub(r a-caret non-alnum run, removing the leading
run of non-alphanumeric characters (regex ^[^a-zA-Z0-9]+). -/
def dropLeadingNonAlnum (t : Str) : Str :=
  t.dropWhile (fun c => !isAsciiAlnum c)

/-- The substitution removing the trailing run of non-alphanumeric characters
(regex [^a-zA-Z0-9]+$). -/
def dropTrailingNonAlnum (t : Str) : Str :=
  dropTrailing (fun c => !isAsciiAlnum c) t

/-- Python s.split on a comma: splits at every comma, keeping empty pieces;
the empty string yields the single empty piece. -/
def splitComma : Str → List Str
  | [] => [[]]
  | c :: rest =>
    if c = ',' then [] :: splitComma rest
    else
      match splitComma rest with
      | [] => [[c]]
      | p :: ps => (c :: p) :: ps

/-- Python comma-space join of a list of strings. -/
def joinCS : List Str → Str
  | [] => []
  | x :: xs =>
    match xs with
    | [] => x
    | _ :: _ => x ++ ',' :: ' ' :: joinCS xs

/-- Skip one HTML tag at the start of rest (rest is the text after an opening
angle bracket): the regex tag body [^>]+ followed by the closing bracket.
Returns the text after the closing bracket, or none when no tag matches. -/
def tagSkip (rest : Str) : Option Str :=
  match rest.dropWhile (fun d => d != '>') with
  | '>' :: tail => if rest.takeWhile (fun d => d != '>') = [] then none else some tail
  | _ => none

theorem tagSkip_lt (rest tail : Str) (h : tagSkip rest = some tail) :
    tail.length < rest.length := by
  unfold tagSkip at h
  split at h
  case h_1 t heq =>
    split at h
    · exact absurd h (by simp)
    · have hle := (List.dropWhile_sublist (l := rest) (fun d => d != '>')).length_le
      rw [heq] at hle
      simp only [List.length_cons] at hle
      simp only [Option.some.injEq] at h
      subst h
      omega
  case h_2 => exact absurd h (by simp)

/-- Scan of the substitution removing complete HTML tags (regex an
angle-bracketed nonempty body, pattern <[^>]+>, replacement empty).  The
fuel argument makes the recursion structural; every step consumes at least
one character of the text, so the fuel of the removeTags wrapper is never
exhausted and the zero-fuel branch is unreachable. -/
def removeTagsGo : Nat → Str → Str
  | _, [] => []
  | 0, t => t
  | fuel + 1, c :: rest =>
    if c = '<' then
      match tagSkip rest with
      | some tail => removeTagsGo fuel tail
      | none => c :: removeTagsGo fuel rest
    else c :: removeTagsGo fuel rest

def removeTags (t : Str) : Str :=
  removeTagsGo t.length t

/-- Scan of the substitution collapsing every whitespace run to a single
space (regex one-or-more whitespace, replacement a single space).  Fuel as
in removeTagsGo. -/
def collapseWsGo : Nat → Str → Str
  | _, [] => []
  | 0, t => t
  | fuel + 1, c :: rest =>
    if pySpace c then ' ' :: collapseWsGo fuel (rest.dropWhile pySpace)
    else c :: collapseWsGo fuel rest

def collapseWs (t : Str) : Str :=
  collapseWsGo t.length t

/-- One alternative of the non-ingredient-text removal regex
(pattern ingredients: or b-ingrédients: or b-ingredients-b or a single
symbol, IGNORECASE).  The literal is stored as first character plus rest so
that every alternative consumes at least one character. -/
inductive TokenAlt where
  | lit (c : Char) (w : Str)
  | bLit (c : Char) (w : Str)
  | bWord (c : Char) (w : Str)
deriving DecidableEq

/-- Try one alternative at the current position.  prevWord records whether
the character just before the current position in the original text is a
word character (for the regex word boundary); the text is t.  Returns the
number of characters the alternative consumes. -/
def matchAlt (prevWord : Bool) (t : Str) : TokenAlt → Option Nat
  | .lit c w => if startsCI (c :: w) t then some (w.length + 1) else none
  | .bLit c w => if !prevWord && startsCI (c :: w) t then some (w.length + 1) else none
  | .bWord c w =>
    if !prevWord && startsCI (c :: w) t && !wordAfter (t.drop (w.length + 1)) then
      some (w.length + 1)
    else none

/-- Try the alternatives in their listed order (regex alternation order). -/
def tryAlts (alts : List TokenAlt) (prevWord : Bool) (t : Str) : Option Nat :=
  match alts with
  | [] => none
  | a :: rest =>
    match matchAlt prevWord t a with
    | some n => some n
    | none => tryAlts rest prevWord t

theorem tryAlts_pos (alts : List TokenAlt) (prevWord : Bool) (t : Str) (n : Nat)
    (h : tryAlts alts prevWord t = some n) : 0 < n := by
  induction alts with
  | nil => exact absurd h (by simp [tryAlts])
  | cons a rest ih =>
    unfold tryAlts at h
    split at h
    · rename_i m hm
      cases a <;> unfold matchAlt at hm <;> split at hm <;>
        simp_all <;> omega
    · exact ih h

/-- Scan of re.sub for the token-removal alternation: at every position the
alternatives are tried in order; on a match the matched characters are
deleted and scanning resumes after them, otherwise one character is kept.
Word boundaries are judged against the original text, so prevWord tracks
the character preceding the current position in the input. -/
def removeTokensGo (alts : List TokenAlt) : Nat → Bool → Str → Str
  | _, _, [] => []
  | 0, _, t => t
  | fuel + 1, prevWord, c :: rest =>
    match tryAlts alts prevWord (c :: rest) with
    | some n =>
      let consumed := (c :: rest).take n
      let nextPrev := match consumed.getLast? with
        | some d => isWordChar d
        | none => prevWord
      removeTokensGo alts fuel nextPrev ((c :: rest).drop n)
    | none => c :: removeTokensGo alts fuel (isWordChar c) rest

/-- The token-removal substitution applied from the start of the text.
Every alternative consumes at least one character (tryAlts_pos), so the
length fuel is never exhausted. -/
def removeTokens (alts : List TokenAlt) (t : Str) : Str :=
  removeTokensGo alts t.length false t

/-- Alternatives of the cleanup regex of batch_fix_ingredients.py,
fix_ingredients_list.py and final_fix_ingredients.py (pattern
ingredients: alt b-ingrédients: alt b-ingredients-b alt colon alt star alt
plus alt dot alt b-INGREDIENTS-b, IGNORECASE). -/
def batchTokenAlts : List TokenAlt :=
  [ .lit 'i' "ngredients:".data
  , .bLit 'i' "ngrédients:".data
  , .bWord 'i' "ngredients".data
  , .lit ':' []
  , .lit '*' []
  , .lit '+' []
  , .lit '.' []
  , .bWord 'I' "NGREDIENTS".data ]

/-- Alternatives of the inline cleanup regex of cosmetics_scraper.py (same
as the batch list but without the final b-INGREDIENTS-b alternative). -/
def scraperTokenAlts : List TokenAlt :=
  [ .lit 'i' "ngredients:".data
  , .bLit 'i' "ngrédients:".data
  , .bWord 'i' "ngredients".data
  , .lit ':' []
  , .lit '*' []
  , .lit '+' []
  , .lit '.' [] ]

/-- Match the separator regex ws-plus bullet ws-plus at a whitespace
position: rest is the text after the first whitespace character.  Greedy
whitespace needs no backtracking here because the bullet is not whitespace.
Returns the text after the matched separator. -/
def bulletSkip (rest : Str) : Option Str :=
  match rest.dropWhile pySpace with
  | '•' :: tail =>
    match tail with
    | d :: _ => if pySpace d then some (tail.dropWhile pySpace) else none
    | [] => none
  | _ => none

theorem bulletSkip_lt (rest tail : Str) (h : bulletSkip rest = some tail) :
    tail.length < rest.length := by
  unfold bulletSkip at h
  split at h
  case h_1 tail0 heq =>
    have h1 := (List.dropWhile_sublist (l := rest) pySpace).length_le
    rw [heq] at h1
    simp only [List.length_cons] at h1
    have h2 := (List.dropWhile_sublist (l := tail0) pySpace).length_le
    split at h
    · split at h
      · simp only [Option.some.injEq] at h
        subst h
        omega
      · exact absurd h (by simp)
    · exact absurd h (by simp)
  case h_2 => exact absurd h (by simp)

/-- The substitution replacing a whitespace-bullet-whitespace separator
(regex ws-plus bullet ws-plus, replacement comma-space), scanning as re.sub:
a position where the separator fails keeps its character and scanning
advances one character. -/
def normBulletsGo : Nat → Str → Str
  | _, [] => []
  | 0, t => t
  | fuel + 1, c :: rest =>
    if pySpace c then
      match bulletSkip rest with
      | some tail => ',' :: ' ' :: normBulletsGo fuel tail
      | none => c :: normBulletsGo fuel rest
    else c :: normBulletsGo fuel rest

def normBullets (t : Str) : Str :=
  normBulletsGo t.length t

/-- Match the separator regex ws-star pipe ws-star at the current position
(t is the text from the current position).  Returns the text after the
matched separator. -/
def pipeSkip (t : Str) : Option Str :=
  match t.dropWhile pySpace with
  | '|' :: tail => some (tail.dropWhile pySpace)
  | _ => none

theorem pipeSkip_lt (t tail : Str) (h : pipeSkip t = some tail) :
    tail.length < t.length := by
  unfold pipeSkip at h
  split at h
  case h_1 tail0 heq =>
    have h1 := (List.dropWhile_sublist (l := t) pySpace).length_le
    rw [heq] at h1
    simp only [List.length_cons] at h1
    have h2 := (List.dropWhile_sublist (l := tail0) pySpace).length_le
    simp only [Option.some.injEq] at h
    subst h
    omega
  case h_2 => exact absurd h (by simp)

/-- The substitution replacing a pipe with optional surrounding whitespace
(regex ws-star pipe ws-star, replacement comma-space), scanning as
re.sub. -/
def normPipesGo : Nat → Str → Str
  | _, [] => []
  | 0, t => t
  | fuel + 1, c :: rest =>
    match pipeSkip (c :: rest) with
    | some tail => ',' :: ' ' :: normPipesGo fuel tail
    | none => c :: normPipesGo fuel rest

def normPipes (t : Str) : Str :=
  normPipesGo t.length t

/-- Lazy group matching for a group of one-or-more arbitrary characters
followed by a terminator alternation (regex lazy dot-plus, DOTALL): the
shortest nonempty prefix of v whose remainder satisfies term.  Returns the
group content. -/
def lazyGroup (term : Str → Bool) (v : Str) : Option Str :=
  match v with
  | [] => none
  | c :: cs => if term cs then some [c] else (lazyGroup term cs).map (fun g => c :: g)

/-- The search scan of re.search for a pattern that can only start where a
trigger holds: positions are tried left to right; at a trigger position the
continuation attempts the full match, and on failure scanning resumes at
the next position. -/
def scanSearch (trig : Str → Bool) (cont : Str → Option Str) (t : Str) : Option Str :=
  match t with
  | [] => none
  | _ :: rest =>
    if trig t then
      match cont t with
      | some g => some g
      | none => scanSearch trig cont rest
    else scanSearch trig cont rest

/-- Trigger of pattern1 of the cleanup scripts: the opening alternation
INGREDIENTS alt ACTIVE alt Active, IGNORECASE, so any match starts with the
literal ingredients or active up to case. -/
def p1Trigger (t : Str) : Bool :=
  startsCI "ingredients".data t || startsCI "active".data t

/-- Is there a comma, or a whitespace-bullet-whitespace separator, inside
the stretch (the separator alternation of pattern1's capture group)? -/
def hasGroupSep (s : Str) : Bool :=
  match s with
  | [] => false
  | c :: rest =>
    c == ',' ||
    (pySpace c &&
      (match rest.dropWhile pySpace with
       | '•' :: d :: _ => pySpace d
       | _ => false)) ||
    hasGroupSep rest

/-- The capture group of pattern1 attempted at a fixed position u: the group
regex AQUA-or-WATER, separators of whitespace or slash, WATER-or-EAU-or-AQUA,
then a greedy non-angle-bracket stretch that must contain a comma or a
whitespace-bullet-whitespace separator.  The greedy tail parts always extend
the group to the end of the non-angle-bracket stretch. -/
def p1GroupAt (u : Str) : Option Str :=
  let n1 := if startsCI "aqua".data u then some 4
            else if startsCI "water".data u then some 5 else none
  match n1 with
  | none => none
  | some k1 =>
    let v := u.drop k1
    let sep := v.takeWhile (fun c => pySpace c || c == '/')
    if sep.length == 0 then none
    else
      let v2 := v.drop sep.length
      let n2 := if startsCI "water".data v2 then some 5
                else if startsCI "eau".data v2 then some 3
                else if startsCI "aqua".data v2 then some 4 else none
      match n2 with
      | none => none
      | some k2 =>
        let v3 := v2.drop k2
        let stretch := v3.takeWhile (fun c => c != '<' && c != '>')
        if hasGroupSep stretch then some (u.take (k1 + sep.length + k2) ++ stretch)
        else none

/-- The lazy gap of pattern1 (lazy dot-star under DOTALL): the group is
attempted at the current position first and the gap grows one character at
a time. -/
def p1LazyScan (u : Str) : Option Str :=
  match p1GroupAt u with
  | some g => some g
  | none =>
    match u with
    | [] => none
    | _ :: rest => p1LazyScan rest

/-- Continuation of pattern1 after its trigger: consume the matched opening
literal, then run the lazy gap and the capture group. -/
def p1Cont (t : Str) : Option Str :=
  let k := if startsCI "ingredients".data t then 11 else 6
  p1LazyScan (t.drop k)

/-- Terminator alternation of pattern2's lazy group: read more (IGNORECASE),
end of text (the dollar anchor, which in Python also matches just before a
final newline), or the two FIL literals. -/
def p2Term (v : Str) : Bool :=
  startsCI "read more".data v || v.isEmpty || v == ['\n'] ||
  startsCI "(FIL".data v || startsCI "(F.I.L".data v

/-- Trigger of pattern2: at least five digits at the current position. -/
def p2Trigger (t : Str) : Bool :=
  (t.take 5).all Char.isDigit && (t.take 5).length == 5

/-- Backtracking of a greedy trailing whitespace run feeding a lazy group:
the longest run is tried first and characters are given back one at a
time. -/
def wsBackGo (term : Str → Bool) (tail : Str) : Nat → Option Str
  | 0 => lazyGroup term tail
  | k + 1 =>
    match lazyGroup term (tail.drop (k + 1)) with
    | some g => some g
    | none => wsBackGo term tail k

def wsBack (term : Str → Bool) (tail : Str) : Option Str :=
  wsBackGo term tail (tail.takeWhile pySpace).length

/-- Continuation of pattern2 after its digit trigger: the greedy digit run,
greedy whitespace, a dash-or-space separator, optional whitespace, then the
lazy group up to a terminator.  The backtracking order of the whitespace
quantifiers around the separator follows the engine: longest first, giving
characters back to the lazy group only when needed. -/
def p2Cont (t : Str) : Option Str :=
  let u := t.dropWhile Char.isDigit
  let m := (u.takeWhile pySpace).length
  match u.drop m with
  | '-' :: tail =>
    (match wsBack p2Term tail with
     | some g => some g
     | none => if ' ' ∈ u.take m then lazyGroup p2Term (u.drop m) else none)
  | _ =>
    if ' ' ∈ u.take m then
      match lazyGroup p2Term (u.drop m) with
      | some g => some g
      | none =>
        if ' ' ∈ u.take (m - 1) then some [(u.take m).getLastD ' '] else none
    else none

/-- Terminator alternation of pattern3's lazy group: the two FIL literals
(no end anchor in this pattern). -/
def p3Term (v : Str) : Bool :=
  startsCI "(FIL".data v || startsCI "(F.I.L".data v

/-- Continuation of pattern3 after the literal active: optional whitespace,
a greedy nonempty run of word characters and whitespace (the repeated
word-plus-whitespace groups and the following whitespace star), an optional
dash with trailing whitespace, then the lazy group up to a FIL terminator.
The greedy run is taken maximally; when the terminator sits immediately at
the group position the engine gives one character back to the group, which
is encoded by the single-character fallbacks. -/
def p3Cont (t : Str) : Option Str :=
  let u := (t.drop 6).dropWhile pySpace
  match u with
  | [] => none
  | c :: _ =>
    if isWordChar c then
      let reps := u.takeWhile (fun d => isWordChar d || pySpace d)
      let v := u.drop reps.length
      match v with
      | '-' :: tl =>
        let ws2 := tl.takeWhile pySpace
        let w := tl.drop ws2.length
        (match lazyGroup p3Term w with
         | some g => some g
         | none => if p3Term w then some [('-' :: ws2).getLastD '-'] else none)
      | _ =>
        (match lazyGroup p3Term v with
         | some g => some g
         | none => if p3Term v then some [reps.getLastD c] else none)
    else none

/-- Terminator alternation of pattern4's lazy group: How to use, Hazards
(IGNORECASE) or the end anchor. -/
def p4Term (v : Str) : Bool :=
  startsCI "How to use".data v || startsCI "Hazards".data v || v.isEmpty || v == ['\n']

/-- Continuation of pattern4 after the literal Ingredients: a nonempty greedy
run of colons and whitespace, then the lazy group up to a terminator; when
the text ends right after the run a character of the run is given back to
the group. -/
def p4Cont (t : Str) : Option Str :=
  let u := t.drop 11
  let run := u.takeWhile (fun c => c == ':' || pySpace c)
  if run.length == 0 then none
  else
    match lazyGroup p4Term (u.drop run.length) with
    | some g => some g
    | none => if 2 ≤ run.length then some [run.getLastD ':'] else none

/-- re.search of pattern1 of the cleanup scripts (IGNORECASE and DOTALL). -/
def searchPat1 (t : Str) : Option Str :=
  scanSearch p1Trigger p1Cont t

/-- re.search of pattern2 of the cleanup scripts. -/
def searchPat2 (t : Str) : Option Str :=
  scanSearch p2Trigger p2Cont t

/-- re.search of pattern3 of the cleanup scripts (trigger: the literal
Active up to case). -/
def searchPat3 (t : Str) : Option Str :=
  scanSearch (fun u => startsCI "active".data u) p3Cont t

/-- re.search of the fourth pattern of final_fix_ingredients.py (trigger:
the literal Ingredients up to case). -/
def searchPat4 (t : Str) : Option Str :=
  scanSearch (fun u => startsCI "ingredients".data u) p4Cont t

/-- The pattern loop of clean_ingredients_text in batch_fix_ingredients.py
and fix_ingredients_list.py: patterns one to three are tried in order and
the first match replaces the text by its stripped capture group. -/
def patternStage (t : Str) : Str :=
  match searchPat1 t with
  | some g => pyStrip g
  | none =>
    match searchPat2 t with
    | some g => pyStrip g
    | none =>
      match searchPat3 t with
      | some g => pyStrip g
      | none => t

/-- clean_ingredients_text of batch_fix_ingredients.py and
fix_ingredients_list.py.  A value that is not a string (None or NaN in the
CSV) is modelled as none and yields the empty string.  Otherwise: pattern
loop, tag removal, whitespace normalization, token removal, strip. -/
def clean_ingredients_text : Option Str → Str
  | none => []
  | some t => pyStrip (removeTokens batchTokenAlts (collapseWs (removeTags (patternStage t))))

/-- The per-item cleanup inside the splitting loops: strip, remove leading
symbols, remove trailing symbols. -/
def cleanItem (i : Str) : Str :=
  dropTrailingNonAlnum (dropLeadingNonAlnum (pyStrip i))

/-- The splitting loop body shared by extract_ingredients_list and
extract_and_clean_ingredients: clean each comma-separated item and keep it
when it is nonempty with more than one character. -/
def processItems (ps : List Str) : List Str :=
  ps.filterMap (fun i =>
    let x := cleanItem i
    if 1 < x.length then some x else none)

/-- extract_ingredients_list of batch_fix_ingredients.py and
fix_ingredients_list.py: empty input yields the empty list, otherwise the
separators are normalized, the text is split on commas and the items are
cleaned and filtered. -/
def extract_ingredients_list (t : Str) : List Str :=
  if t.isEmpty then []
  else processItems (splitComma (normPipes (normBullets t)))

/-- The pattern loop of extract_and_clean_ingredients in
final_fix_ingredients.py: patterns one to four in order. -/
def finalPatternStage (t : Str) : Str :=
  match searchPat1 t with
  | some g => pyStrip g
  | none =>
    match searchPat2 t with
    | some g => pyStrip g
    | none =>
      match searchPat3 t with
      | some g => pyStrip g
      | none =>
        match searchPat4 t with
        | some g => pyStrip g
        | none => t

/-- extract_and_clean_ingredients of final_fix_ingredients.py: non-string or
whitespace-only input yields the empty string and the empty list; otherwise
the pattern loop and cleanup substitutions run (the cleaned text is not
stripped at the end in this script), the separators are normalized and the
items are extracted. -/
def extract_and_clean_ingredients : Option Str → Str × List Str
  | none => ([], [])
  | some t =>
    if (pyStrip t).isEmpty then ([], [])
    else
      let cleaned := removeTokens batchTokenAlts (collapseWs (removeTags (finalPatternStage t)))
      (cleaned, processItems (splitComma (normPipes (normBullets cleaned))))

/-- The filter of the list comprehensions over comma-split pieces: strip
the piece and keep it when nonempty. -/
def stripKeep (i : Str) : Option Str :=
  if (pyStrip i).isEmpty then none else some (pyStrip i)

/-- The list comprehension converting a joined ingredients string back to a
list in the JSON serialization steps: split on commas, strip each piece,
keep the nonempty ones. -/
def jsonifyList (t : Str) : List Str :=
  (splitComma t).filterMap stripKeep

/-- The inline ingredient counting of cosmetics_scraper.py: token-removal
substitution with the scraper alternative list, split on commas, strip,
keep nonempty items. -/
def scraperCountList (t : Str) : List Str :=
  (splitComma (removeTokens scraperTokenAlts t)).filterMap stripKeep

/-- A product row of the cleanup scripts: the three ingredient fields plus
all remaining columns, which the scripts never touch, collected in rest.
A missing or non-string ingredients cell (NaN) is modelled as none; the
ingredients_list column holds the comma-space joined string the scripts
write. -/
structure Row (α : Type) where
  ingredients : Option Str
  ingredients_count : Option Nat
  ingredients_list : Option Str
  rest : α
deriving DecidableEq

/-- The per-row body of process_batch in batch_fix_ingredients.py: skip a
missing or whitespace-only ingredients cell, otherwise clean the text,
extract the list, and update the three fields only when the extracted list
is nonempty. -/
def batchRowStep {α : Type} (r : Row α) : Row α :=
  match r.ingredients with
  | none => r
  | some s =>
    if (pyStrip s).isEmpty then r
    else
      let cleaned := clean_ingredients_text (some s)
      let l := extract_ingredients_list cleaned
      if l.isEmpty then r
      else { r with ingredients := some cleaned
                  , ingredients_count := some l.length
                  , ingredients_list := some (joinCS l) }

/-- Did the row body of batch_fix_ingredients.py count this row as fixed? -/
def batchRowSuccess {α : Type} (r : Row α) : Bool :=
  match r.ingredients with
  | none => false
  | some s =>
    if (pyStrip s).isEmpty then false
    else !(extract_ingredients_list (clean_ingredients_text (some s))).isEmpty

/-- process_batch of batch_fix_ingredients.py: one output row per input row
in order, plus the success count. -/
def process_batch {α : Type} (rows : List (Row α)) : List (Row α) × Nat :=
  match rows with
  | [] => ([], 0)
  | r :: rs =>
    let pr := process_batch rs
    (batchRowStep r :: pr.1, (if batchRowSuccess r then 1 else 0) + pr.2)

/-- The per-row body of process_batch in final_fix_ingredients.py: extract
and clean (the helper itself handles missing values), update the three
fields only when the extracted list is nonempty. -/
def finalRowStep {α : Type} (r : Row α) : Row α :=
  let p := extract_and_clean_ingredients r.ingredients
  if p.2.isEmpty then r
  else { r with ingredients := some p.1
              , ingredients_count := some p.2.length
              , ingredients_list := some (joinCS p.2) }

/-- The per-row body of fix_database in fix_ingredients_list.py: same
skip-clean-extract-update logic as batch_fix_ingredients.py. -/
def fixDbRowStep {α : Type} (r : Row α) : Row α :=
  match r.ingredients with
  | none => r
  | some s =>
    if (pyStrip s).isEmpty then r
    else
      let cleaned := clean_ingredients_text (some s)
      let l := extract_ingredients_list cleaned
      if l.isEmpty then r
      else { r with ingredients := some cleaned
                  , ingredients_count := some l.length
                  , ingredients_list := some (joinCS l) }

/-- A matched page element, carrying its extracted text. -/
structure Elem where
  text : Str
deriving DecidableEq

/-- The brand selector list of scrape_with_extended_timeout in
cosmetics_scraper.py. -/
def brandSelectorList : List Str :=
  [ "a.product-details-tile__brand".data
  , ".product-brand".data
  , ".brand-name".data
  , ".product-info__brand".data ]

/-- The select_one cascade of scrape_with_extended_timeout: selectors are
tried in order and the first one whose lookup yields an element sets the
stripped element text and breaks out of the loop. -/
def brandCascade (page : Str → Option Elem) : List Str → Option Str
  | [] => none
  | s :: ss =>
    match page s with
    | some e => some (pyStrip e.text)
    | none => brandCascade page ss

/-- The specific ingredient selector list of extract_ingredients in
cosmetics_scraper.py. -/
def ingSelectorList : List Str :=
  [ ".product-ingredients".data
  , ".ingredients-list".data
  , ".product-composition".data
  , ".composition-list".data
  , "[data-testid=\"ingredients\"]".data
  , "[data-testid=\"product-ingredients\"]".data
  , ".product-details-tile__product-info-section".data
  , ".product-info-block".data
  , ".product-details__description".data ]

/-- Terminator of the inline ingredients-colon pattern: a literal dot or the
end anchor. -/
def innSelTerm : Str → Bool
  | [] => true
  | ['\n'] => true
  | '.' :: _ => true
  | _ => false

/-- re.search of the inline pattern ingredients ws-star colon, lazy group,
terminator dot or end, used inside extract_ingredients (IGNORECASE and
DOTALL). -/
def ingColonSearch (t : Str) : Option Str :=
  scanSearch (fun u => startsCI "ingredients".data u)
    (fun u =>
      let v := u.drop 11
      match v.dropWhile pySpace with
      | ':' :: rest => lazyGroup innSelTerm rest
      | _ => none) t

/-- The chemical-name word list of extract_ingredients. -/
def chemWords : List Str :=
  [ "acid".data, "extract".data, "oil".data, "butter".data, "glycerin".data
  , "water".data, "aqua".data, "alcohol".data, "vitamin".data, "sodium".data
  , "potassium".data, "calcium".data, "zinc".data, "iron".data, "copper".data
  , "magnesium".data ]

/-- re.search of the chemical-name pattern (word-boundary alternation of
chemWords, IGNORECASE): scan every position, tracking whether the previous
character is a word character. -/
def chemSearchGo (prevWord : Bool) : Str → Bool
  | [] => false
  | c :: rest =>
    (!prevWord &&
      chemWords.any (fun w =>
        startsCI w (c :: rest) && !wordAfter ((c :: rest).drop w.length))) ||
    chemSearchGo (isWordChar c) rest

def chemSearch (t : Str) : Bool :=
  chemSearchGo false t

/-- The fallback branch of the specific-selector loop: the stripped element
text itself when it has a comma, length under 3000 and a chemical name. -/
def elemFallback (e : Elem) : Option Str :=
  let et := pyStrip e.text
  if ',' ∈ et ∧ et.length < 3000 then
    (if chemSearch et then some et else none)
  else none

/-- The per-element validation of the specific-selector loop of
extract_ingredients: the element text must mention ingredients; a matched
ingredients-colon group that looks like a list is returned, otherwise the
stripped element text is returned when it has a comma, bounded length and a
chemical name. -/
def elemCheck (e : Elem) : Option Str :=
  if containsCI "ingredients".data e.text then
    match ingColonSearch e.text with
    | some g =>
      let it := pyStrip g
      if ',' ∈ it ∧ 20 < it.length ∧ it.length < 3000 then some it
      else elemFallback e
    | none => elemFallback e
  else none

/-- The inner element loop of the specific-selector stage. -/
def elemsLoop : List Elem → Option Str
  | [] => none
  | e :: es =>
    match elemCheck e with
    | some r => some r
    | none => elemsLoop es

/-- The selector loop of the specific-selector stage of extract_ingredients:
soup.select for each selector in order, scanning the matched elements. -/
def selectorLoop (select : Str → List Elem) : List Str → Option Str
  | [] => none
  | s :: ss =>
    match elemsLoop (select s) with
    | some r => some r
    | none => selectorLoop select ss

/-- The try-specific-selectors stage of extract_ingredients, over a page
modelled as the soup.select results for each selector. -/
def ingredientSelectorsStage (select : Str → List Elem) : Option Str :=
  selectorLoop select ingSelectorList

/-- The extraction results of one successfully fetched and parsed page in
scrape_boots_product: for each field, the value its extraction logic would
produce (none when nothing was found).  The product_details value already
includes the general-description fallback of the source. -/
structure PageData where
  product_name : Option Str
  brand : Option Str
  ingredients : Option Str
  country_of_origin : Option Str
  hazards_and_cautions : Option Str
  how_to_use : Option Str
  product_details : Option Str
deriving DecidableEq

/-- Outcome of one iteration of the fetch loop of scrape_boots_product: an
exception anywhere in the attempt, a 429 response, another non-200 status,
or a parsed page with its extraction results. -/
inductive FetchOutcome where
  | exn
  | rateLimited
  | badStatus (code : Nat)
  | pageOk (p : PageData)
deriving DecidableEq

/-- The product record dictionary of scrape_boots_product. -/
structure ProductData where
  url : Str
  product_name : Option Str
  brand : Option Str
  ingredients : Option Str
  ingredients_count : Option Nat
  ingredients_list : Option (List Str)
  country_of_origin : Option Str
  hazards_and_cautions : Option Str
  how_to_use : Option Str
  product_details : Option Str
  scrape_timestamp : Str
deriving DecidableEq

/-- The record as initialized at the top of scrape_boots_product: url and
timestamp set, every other field None. -/
def initProduct (url ts : Str) : ProductData :=
  ⟨url, none, none, none, none, none, none, none, none, none, ts⟩

/-- Conditional assignment: the source only assigns a field when its
element or pattern was found, keeping the previous value otherwise. -/
def orKeep : Option Str → Option Str → Option Str
  | some v, _ => some v
  | none, old => old

/-- One successful-fetch body of scrape_boots_product: product name, brand
and country are assigned only when found; ingredients, hazards, how-to-use
and product details are assigned unconditionally; count and list are set
from the inline counting when the ingredients value is truthy. -/
def applyExtractions (pd : ProductData) (p : PageData) : ProductData :=
  let pd1 : ProductData :=
    { pd with
      product_name := orKeep p.product_name pd.product_name
      brand := orKeep p.brand pd.brand
      ingredients := p.ingredients
      country_of_origin := orKeep p.country_of_origin pd.country_of_origin
      hazards_and_cautions := p.hazards_and_cautions
      how_to_use := p.how_to_use
      product_details := p.product_details }
  match p.ingredients with
  | some t =>
    if t.isEmpty then pd1
    else { pd1 with ingredients_count := some (scraperCountList t).length
                  , ingredients_list := some (scraperCountList t) }
  | none => pd1

/-- Python truthiness of an optional string field: present and nonempty. -/
def truthyStr : Option Str → Bool
  | some s => !s.isEmpty
  | none => false

/-- The meaningful-data check ending the retry loop of
scrape_boots_product. -/
def meaningful (pd : ProductData) : Bool :=
  truthyStr pd.product_name || truthyStr pd.brand || truthyStr pd.ingredients

/-- A row of the CSV written by save_to_csv in cosmetics_scraper.py: the
same columns as the product record, with the ingredients_list cell holding
the joined string the conversion writes. -/
structure ProductCsvRow where
  url : Str
  product_name : Option Str
  brand : Option Str
  ingredients : Option Str
  ingredients_count : Option Nat
  ingredients_list : Option Str
  country_of_origin : Option Str
  hazards_and_cautions : Option Str
  how_to_use : Option Str
  product_details : Option Str
  scrape_timestamp : Str
deriving DecidableEq

/-- The per-record conversion inside save_to_csv of cosmetics_scraper.py:
each product dictionary is copied, and when ingredients_list is present and
not None it is replaced by its comma-space join; no other field is written
by this loop — in particular ingredients_count is left exactly as it was. -/
def save_to_csv_row (pd : ProductData) : ProductCsvRow :=
  ⟨pd.url, pd.product_name, pd.brand, pd.ingredients, pd.ingredients_count,
   pd.ingredients_list.map joinCS, pd.country_of_origin,
   pd.hazards_and_cautions, pd.how_to_use, pd.product_details,
   pd.scrape_timestamp⟩

/-- The progress-file fixup in the main routine of cosmetics_scraper.py: a
loaded product whose ingredients value is present and truthy but which has
no ingredients_list field gets both ingredients_count and ingredients_list
from the inline token-removal and comma-split counting (the same inline
code as the page-extraction body); every other product is left unchanged.
A missing dictionary key is modelled as none. -/
def progressFixupStep (pd : ProductData) : ProductData :=
  match pd.ingredients with
  | some t =>
    if t.isEmpty then pd
    else
      match pd.ingredients_list with
      | none => { pd with ingredients_count := some (scraperCountList t).length
                        , ingredients_list := some (scraperCountList t) }
      | some _ => pd
  | none => pd

/-- extract_and_clean_ingredients of fix_sample.py: identical to the
final_fix_ingredients.py extractor except that its pattern list has only
the first three search patterns (no fourth Ingredients-section pattern);
like there, the cleaned text is not stripped at the end. -/
def sample_extract_and_clean_ingredients : Option Str → Str × List Str
  | none => ([], [])
  | some t =>
    if (pyStrip t).isEmpty then ([], [])
    else
      let cleaned := removeTokens batchTokenAlts (collapseWs (removeTags (patternStage t)))
      (cleaned, processItems (splitComma (normPipes (normBullets cleaned))))

/-- The per-row body of the fixing loop in fix_sample.py: extract and
clean, and update the three ingredient fields only when the extracted list
is nonempty — the same update shape as final_fix_ingredients.py. -/
def sampleRowStep {α : Type} (r : Row α) : Row α :=
  let p := sample_extract_and_clean_ingredients r.ingredients
  if p.2.isEmpty then r
  else { r with ingredients := some p.1
              , ingredients_count := some p.2.length
              , ingredients_list := some (joinCS p.2) }

/-- The product record of backup/boots_advanced_scraper.py, field for field
as the dictionary initialized at the top of scrape_product: it carries an
ingredients_list field but no ingredients_count field at all. -/
structure AdvProductData where
  product_url : Str
  product_id : Str
  product_name : Str
  brand : Str
  price : Option ℚ
  original_price : Option ℚ
  discount : Option ℚ
  rating : Option ℚ
  review_count : Option Nat
  product_details : Str
  ingredients : Str
  ingredients_list : List Str
  key_ingredients : List Str
  how_to_use : Str
  hazards_and_cautions : Str
  country_of_origin : Str
  specifications : List (Str × Str)
  scrape_date : Str
deriving DecidableEq

/-- The record initializer of scrape_product in
backup/boots_advanced_scraper.py: url, id and date set, every string field
empty, numeric fields None, and ingredients_list the empty list — written
with no accompanying count, since the record has no such field. -/
def initAdvProduct (url pid date : Str) : AdvProductData :=
  ⟨url, pid, [], [], none, none, none, none, none, [], [], [], [], [], [],
   [], [], date⟩

/-- MAX_RETRIES of cosmetics_scraper.py. -/
def MAX_RETRIES : Nat := 3

/-- The while-loop of scrape_boots_product over an oracle of per-iteration
fetch outcomes: every failure increments the retry counter, a meaningful
page returns the record, and on loop exit the partially filled record is
returned.  Timing (sleeps and delays) is not modelled. -/
def scrapeAttempts (outs : Nat → FetchOutcome) : Nat → Nat → ProductData →
    ProductData
  | 0, _, pd => pd
  | remaining + 1, retries, pd =>
    match outs retries with
    | .exn => scrapeAttempts outs remaining (retries + 1) pd
    | .rateLimited => scrapeAttempts outs remaining (retries + 1) pd
    | .badStatus _ => scrapeAttempts outs remaining (retries + 1) pd
    | .pageOk p =>
      let pd2 := applyExtractions pd p
      if meaningful pd2 then pd2 else scrapeAttempts outs remaining (retries + 1) pd2

/-- scrape_boots_product of cosmetics_scraper.py, as a total function of the
url, the timestamp taken at entry, and the fetch-outcome oracle.  The
remaining argument of the loop counts the iterations the while condition
retries less than MAX_RETRIES still allows. -/
def scrape_boots_product (url ts : Str) (outs : Nat → FetchOutcome) : ProductData :=
  scrapeAttempts outs MAX_RETRIES 0 (initProduct url ts)

/-- Number of times the loop body of scrape_boots_product executes. -/
def scrapeIterCount (outs : Nat → FetchOutcome) : Nat → Nat → ProductData → Nat
  | 0, _, _ => 0
  | remaining + 1, retries, pd =>
    match outs retries with
    | .exn => 1 + scrapeIterCount outs remaining (retries + 1) pd
    | .rateLimited => 1 + scrapeIterCount outs remaining (retries + 1) pd
    | .badStatus _ => 1 + scrapeIterCount outs remaining (retries + 1) pd
    | .pageOk p =>
      let pd2 := applyExtractions pd p
      if meaningful pd2 then 1 else 1 + scrapeIterCount outs remaining (retries + 1) pd2

/-- navigate_with_retry of backup/boots_advanced_scraper.py over a success
oracle ok and the random backoff factors rand: attempts run for attempt in
range of max_retries plus one; a failure before the last attempt sleeps two
to the attempt times the random factor; when the loop ends the function
returns None.  Returns the result together with the list of performed
backoff sleeps. -/
def navLoop (ok : Nat → Bool) (rand : Nat → ℚ) : Nat → Nat →
    Option Bool × List ℚ
  | 0, _ => (none, [])
  | remaining + 1, attempt =>
    if ok attempt then (some true, [])
    else if remaining = 0 then (none, [])
    else
      let pr := navLoop ok rand remaining (attempt + 1)
      (pr.1, ((2 : ℚ) ^ attempt * rand attempt) :: pr.2)

/-- navigate_with_retry runs the loop with max_retries plus one attempts
available (for attempt in range of max_retries plus one); a remaining value
of one means this is the last attempt, matching the source check attempt
less than max_retries before sleeping. -/
def navigate_with_retry (ok : Nat → Bool) (rand : Nat → ℚ) (maxR : Nat) :
    Option Bool × List ℚ :=
  navLoop ok rand (maxR + 1) 0

/-- Number of navigation attempts made by navigate_with_retry. -/
def navAttemptCount (ok : Nat → Bool) : Nat → Nat → Nat
  | 0, _ => 0
  | remaining + 1, attempt =>
    if ok attempt then 1
    else if remaining = 0 then 1
    else 1 + navAttemptCount ok remaining (attempt + 1)

/-- A CSV file as read_product_urls_from_boots_csv sees it: its column names
and, for each column name, its cells (none is a NaN cell). -/
structure CsvFile where
  columns : List Str
  col : Str → List (Option Str)

/-- How the input of read_product_urls_from_boots_csv can present itself: a
missing file, a read that raises, or a parsed file. -/
inductive CsvSource where
  | missing
  | readError
  | ok (f : CsvFile)

/-- The URL column name the reader looks for first. -/
def urlColumn : Str :=
  "oct-link href 2".data

/-- pandas Series.dropna().unique().tolist(): drop the missing cells and
keep the first occurrence of each value, in order. -/
def uniqueFirstGo (seen : List Str) : List Str → List Str
  | [] => []
  | x :: xs =>
    if x ∈ seen then uniqueFirstGo seen xs
    else x :: uniqueFirstGo (x :: seen) xs

def uniqueFirst (l : List Str) : List Str :=
  uniqueFirstGo [] l

/-- read_product_urls_from_boots_csv of cosmetics_scraper.py: a missing
file or a read error yields the empty list; the dedicated URL column is
preferred; otherwise the first column whose lowercased name contains both
oct-link and href is used; with no such column the empty list is
returned. -/
def read_product_urls_from_boots_csv (src : CsvSource) : List Str :=
  match src with
  | .missing => []
  | .readError => []
  | .ok f =>
    if urlColumn ∈ f.columns then
      uniqueFirst ((f.col urlColumn).filterMap id)
    else
      match f.columns.filter
          (fun c => containsCI "oct-link".data c && containsCI "href".data c) with
      | [] => []
      | c :: _ => uniqueFirst ((f.col c).filterMap id)

theorem pySpace_cases (c : Char) (h : pySpace c = true) :
    c = ' ' ∨ c = '\t' ∨ c = '\n' ∨ c = '\r' ∨ c = '\x0B' ∨ c = '\x0C' := by
  simp only [pySpace, Bool.or_eq_true, beq_iff_eq] at h
  tauto

theorem alnum_not_space (c : Char) (h : isAsciiAlnum c = true) : pySpace c = false := by
  rcases Bool.eq_false_or_eq_true (pySpace c) with hs | hs
  · rcases pySpace_cases c hs with rfl | rfl | rfl | rfl | rfl | rfl <;> simp_all [isAsciiAlnum]
  · exact hs

theorem dropTrailing_nil_of_all (p : Char → Bool) (l : Str) (h : ∀ x ∈ l, p x = true) :
    dropTrailing p l = [] := by
  induction l with
  | nil => rfl
  | cons c rest ih =>
    have hrest := ih (fun x hx => h x (List.mem_cons_of_mem c hx))
    simp [dropTrailing, hrest, h c (List.mem_cons_self c rest)]

theorem dropTrailing_eq_self (p : Char → Bool) (l : Str) (c : Char)
    (hl : l.getLast? = some c) (hc : p c = false) : dropTrailing p l = l := by
  induction l with
  | nil => simp at hl
  | cons d rest ih =>
    match rest, hl with
    | [], hl =>
      simp only [List.getLast?_singleton, Option.some.injEq] at hl
      subst hl
      simp [dropTrailing, hc]
    | e :: rest2, hl =>
      rw [List.getLast?_cons_cons] at hl
      have hd := ih hl
      show (match dropTrailing p (e :: rest2) with
            | [] => if p d = true then [] else [d]
            | r => d :: r) = d :: e :: rest2
      rw [hd]

theorem dropTrailing_subset (p : Char → Bool) (l : Str) (x : Char)
    (h : x ∈ dropTrailing p l) : x ∈ l := by
  induction l with
  | nil => simp [dropTrailing] at h
  | cons c rest ih =>
    simp only [dropTrailing] at h
    split at h
    · split at h
      · simp at h
      · simp_all
    · rw [List.mem_cons] at h
      rcases h with rfl | h
      · exact List.mem_cons_self x rest
      · exact List.mem_cons_of_mem c (ih h)

theorem dropTrailing_head (p : Char → Bool) (c y : Char) (l ys : Str)
    (h : dropTrailing p (c :: l) = y :: ys) : y = c := by
  simp only [dropTrailing] at h
  split at h
  · split at h
    · simp at h
    · simp_all
  · simp_all

theorem dropTrailing_last (p : Char → Bool) (l : Str) (c : Char)
    (h : (dropTrailing p l).getLast? = some c) : p c = false := by
  induction l with
  | nil => simp [dropTrailing] at h
  | cons d rest ih =>
    simp only [dropTrailing] at h
    split at h
    · split at h
      · simp at h
      · rename_i hpd
        simp only [List.getLast?_singleton, Option.some.injEq] at h
        subst h
        simpa using hpd
    · rename_i hr
      cases hdt : dropTrailing p rest with
      | nil => exact absurd hdt hr
      | cons e r2 =>
        rw [hdt, List.getLast?_cons_cons] at h
        exact ih (by rw [hdt]; exact h)

theorem pyStrip_nil_of_space (l : Str) (h : ∀ x ∈ l, pySpace x = true) :
    pyStrip l = [] := by
  unfold pyStrip
  rw [List.dropWhile_eq_nil_iff.mpr h]
  rfl

theorem pyStrip_subset (l : Str) (x : Char) (h : x ∈ pyStrip l) : x ∈ l := by
  unfold pyStrip at h
  exact (List.dropWhile_sublist pySpace).subset (dropTrailing_subset _ _ _ h)

theorem pyStrip_eq_self (l : Str)
    (h1 : ∀ c, l.head? = some c → pySpace c = false)
    (h2 : ∀ c, l.getLast? = some c → pySpace c = false) : pyStrip l = l := by
  cases l with
  | nil => rfl
  | cons c rest =>
    unfold pyStrip
    rw [List.dropWhile_cons_of_neg (by simp [h1 c rfl])]
    cases hgl : (c :: rest).getLast? with
    | none => simp at hgl
    | some d => exact dropTrailing_eq_self pySpace (c :: rest) d hgl (h2 d hgl)

theorem pyStrip_append_space (pre l : Str) (hp : ∀ x ∈ pre, pySpace x = true) :
    pyStrip (pre ++ l) = pyStrip l := by
  unfold pyStrip
  rw [List.dropWhile_append_of_pos hp]

theorem splitComma_ne_nil (t : Str) : splitComma t ≠ [] := by
  induction t with
  | nil => simp [splitComma]
  | cons c rest ih =>
    simp only [splitComma]
    split
    · simp
    · split <;> simp

theorem mem_splitComma_no_comma (t p : Str) (hp : p ∈ splitComma t) : ',' ∉ p := by
  induction t generalizing p with
  | nil =>
    simp only [splitComma, List.mem_singleton] at hp
    subst hp
    simp
  | cons c rest ih =>
    simp only [splitComma] at hp
    split at hp
    · rcases List.mem_cons.mp hp with rfl | h
      · simp
      · exact ih _ h
    · rename_i hc
      split at hp
      · rename_i hnil
        exact absurd hnil (splitComma_ne_nil rest)
      · rename_i p0 ps hps
        rcases List.mem_cons.mp hp with rfl | h
        · intro hmem
          rcases List.mem_cons.mp hmem with heq | hm
          · exact hc heq.symm
          · exact ih p0 (by rw [hps]; exact List.mem_cons_self _ _) hm
        · exact ih p (by rw [hps]; exact List.mem_cons_of_mem _ h)

theorem splitComma_of_no_comma (t : Str) (h : ',' ∉ t) : splitComma t = [t] := by
  induction t with
  | nil => rfl
  | cons c rest ih =>
    have hc : ¬(c = ',') := fun hh => h (hh ▸ List.mem_cons_self c rest)
    have hr := ih (fun hm => h (List.mem_cons_of_mem c hm))
    simp only [splitComma, if_neg hc, hr]

theorem splitComma_append (a b : Str) (h : ',' ∉ a) :
    splitComma (a ++ ',' :: b) = a :: splitComma b := by
  induction a with
  | nil => simp [splitComma]
  | cons c rest ih =>
    have hc : ¬(c = ',') := fun hh => h (hh ▸ List.mem_cons_self c rest)
    have hr := ih (fun hm => h (List.mem_cons_of_mem c hm))
    simp only [List.cons_append, splitComma, if_neg hc]
    rw [show rest.append (',' :: b) = rest ++ ',' :: b from rfl, hr]

theorem mem_joinCS (ns : List Str) (c : Char) (h : c ∈ joinCS ns) :
    c = ',' ∨ c = ' ' ∨ ∃ n ∈ ns, c ∈ n := by
  induction ns with
  | nil => simp [joinCS] at h
  | cons x xs ih =>
    cases xs with
    | nil =>
      right; right
      exact ⟨x, List.mem_cons_self _ _, by simpa [joinCS] using h⟩
    | cons y ys =>
      simp only [joinCS] at h
      rw [List.mem_append] at h
      rcases h with h | h
      · right; right; exact ⟨x, List.mem_cons_self _ _, h⟩
      · rcases List.mem_cons.mp h with rfl | h
        · left; rfl
        · rcases List.mem_cons.mp h with rfl | h
          · right; left; rfl
          · rcases ih h with h | h | ⟨n, hn, hc⟩
            · left; exact h
            · right; left; exact h
            · right; right; exact ⟨n, List.mem_cons_of_mem _ hn, hc⟩

theorem removeTagsGo_id (fuel : Nat) (t : Str) (h : '<' ∉ t) :
    removeTagsGo fuel t = t := by
  induction fuel generalizing t with
  | zero => cases t <;> rfl
  | succ fuel ih =>
    cases t with
    | nil => rfl
    | cons c rest =>
      have hc : ¬(c = '<') := fun hh => h (hh ▸ List.mem_cons_self c rest)
      simp only [removeTagsGo, if_neg hc]
      rw [ih rest (fun hm => h (List.mem_cons_of_mem c hm))]

theorem removeTags_id (t : Str) (h : '<' ∉ t) : removeTags t = t :=
  removeTagsGo_id t.length t h

theorem collapseWsGo_nil (fuel : Nat) : collapseWsGo fuel [] = [] := by
  cases fuel <;> rfl

theorem collapseWs_all_space (t : Str) (hne : t ≠ []) (h : ∀ x ∈ t, pySpace x = true) :
    collapseWs t = [' '] := by
  cases t with
  | nil => exact absurd rfl hne
  | cons c rest =>
    show collapseWsGo (rest.length + 1) (c :: rest) = [' ']
    simp only [collapseWsGo, if_pos (h c (List.mem_cons_self c rest)),
      List.dropWhile_eq_nil_iff.mpr (fun x hx => h x (List.mem_cons_of_mem c hx)),
      collapseWsGo_nil]

theorem chEqCI_space (c a : Char) (hc : pySpace c = true)
    (ha : a = 'i' ∨ a = 'a' ∨ a = ':' ∨ a = '*' ∨ a = '+' ∨ a = '.' ∨ a = 'I') :
    chEqCI c a = false := by
  rcases pySpace_cases c hc with rfl | rfl | rfl | rfl | rfl | rfl <;>
    rcases ha with rfl | rfl | rfl | rfl | rfl | rfl | rfl <;> decide

theorem startsCI_head_false (a : Char) (w : Str) (c : Char) (rest : Str)
    (h : chEqCI c a = false) : startsCI (a :: w) (c :: rest) = false := by
  simp [startsCI, h]

theorem tryAlts_batch_space (prev : Bool) (c : Char) (rest : Str)
    (h : pySpace c = true) : tryAlts batchTokenAlts prev (c :: rest) = none := by
  have h1 : chEqCI c 'i' = false := chEqCI_space c 'i' h (by tauto)
  have h2 : chEqCI c ':' = false := chEqCI_space c ':' h (by tauto)
  have h3 : chEqCI c '*' = false := chEqCI_space c '*' h (by tauto)
  have h4 : chEqCI c '+' = false := chEqCI_space c '+' h (by tauto)
  have h5 : chEqCI c '.' = false := chEqCI_space c '.' h (by tauto)
  have h6 : chEqCI c 'I' = false := chEqCI_space c 'I' h (by tauto)
  simp [tryAlts, matchAlt, batchTokenAlts, startsCI, h1, h2, h3, h4, h5, h6]

theorem removeTokensGo_batch_space (fuel : Nat) (prev : Bool) (t : Str)
    (h : ∀ x ∈ t, pySpace x = true) :
    removeTokensGo batchTokenAlts fuel prev t = t := by
  induction fuel generalizing prev t with
  | zero => cases t <;> rfl
  | succ fuel ih =>
    cases t with
    | nil => rfl
    | cons c rest =>
      simp only [removeTokensGo,
        tryAlts_batch_space prev c rest (h c (List.mem_cons_self c rest))]
      exact congrArg (List.cons c) (ih _ rest (fun x hx => h x (List.mem_cons_of_mem c hx)))

theorem removeTokens_batch_space (t : Str) (h : ∀ x ∈ t, pySpace x = true) :
    removeTokens batchTokenAlts t = t :=
  removeTokensGo_batch_space t.length false t h

theorem scanSearch_none_of_space (trig : Str → Bool) (cont : Str → Option Str)
    (htrig : ∀ c rest2, pySpace c = true → (∀ x ∈ rest2, pySpace x = true) →
      trig (c :: rest2) = false)
    (t : Str) (h : ∀ x ∈ t, pySpace x = true) : scanSearch trig cont t = none := by
  induction t with
  | nil => rfl
  | cons c rest ih =>
    have hr : ∀ x ∈ rest, pySpace x = true := fun x hx => h x (List.mem_cons_of_mem c hx)
    simp only [scanSearch, htrig c rest (h c (List.mem_cons_self c rest)) hr,
      Bool.false_eq_true, if_false]
    exact ih hr

theorem p1Trigger_space (c : Char) (rest : Str) (hc : pySpace c = true) :
    p1Trigger (c :: rest) = false := by
  rw [p1Trigger,
    show "ingredients".data = 'i' :: "ngredients".data from rfl,
    show "active".data = 'a' :: "ctive".data from rfl,
    startsCI_head_false _ _ _ _ (chEqCI_space c 'i' hc (by tauto)),
    startsCI_head_false _ _ _ _ (chEqCI_space c 'a' hc (by tauto))]
  rfl

theorem p2Trigger_space (c : Char) (rest : Str) (hc : pySpace c = true) :
    p2Trigger (c :: rest) = false := by
  have hd : c.isDigit = false := by
    rcases pySpace_cases c hc with rfl | rfl | rfl | rfl | rfl | rfl <;> decide
  rw [p2Trigger, show (c :: rest).take 5 = c :: rest.take 4 from rfl, List.all_cons, hd]
  rfl

theorem startsCI_active_space (c : Char) (rest : Str) (hc : pySpace c = true) :
    startsCI "active".data (c :: rest) = false := by
  rw [show "active".data = 'a' :: "ctive".data from rfl,
    startsCI_head_false _ _ _ _ (chEqCI_space c 'a' hc (by tauto))]

theorem startsCI_ingredients_space (c : Char) (rest : Str) (hc : pySpace c = true) :
    startsCI "ingredients".data (c :: rest) = false := by
  rw [show "ingredients".data = 'i' :: "ngredients".data from rfl,
    startsCI_head_false _ _ _ _ (chEqCI_space c 'i' hc (by tauto))]

theorem bulletSkip_mem (rest tail : Str) (h : bulletSkip rest = some tail) :
    '•' ∈ rest := by
  unfold bulletSkip at h
  split at h
  case h_1 tail0 heq =>
    exact (List.dropWhile_sublist pySpace).subset (heq ▸ List.mem_cons_self '•' tail0)
  case h_2 => simp at h

theorem pipeSkip_mem (t tail : Str) (h : pipeSkip t = some tail) : '|' ∈ t := by
  unfold pipeSkip at h
  split at h
  case h_1 tail0 heq =>
    exact (List.dropWhile_sublist pySpace).subset (heq ▸ List.mem_cons_self '|' tail0)
  case h_2 => simp at h

theorem normBulletsGo_id (fuel : Nat) (t : Str) (h : '•' ∉ t) :
    normBulletsGo fuel t = t := by
  induction fuel generalizing t with
  | zero => cases t <;> rfl
  | succ fuel ih =>
    cases t with
    | nil => rfl
    | cons c rest =>
      have hr : '•' ∉ rest := fun hm => h (List.mem_cons_of_mem c hm)
      simp only [normBulletsGo]
      split
      · cases hbs : bulletSkip rest with
        | some tail => exact absurd (bulletSkip_mem rest tail hbs) hr
        | none => rw [ih rest hr]
      · rw [ih rest hr]

theorem normBullets_id (t : Str) (h : '•' ∉ t) : normBullets t = t :=
  normBulletsGo_id t.length t h

theorem normPipesGo_id (fuel : Nat) (t : Str) (h : '|' ∉ t) :
    normPipesGo fuel t = t := by
  induction fuel generalizing t with
  | zero => cases t <;> rfl
  | succ fuel ih =>
    cases t with
    | nil => rfl
    | cons c rest =>
      simp only [normPipesGo]
      cases hps : pipeSkip (c :: rest) with
      | some tail => exact absurd (pipeSkip_mem _ tail hps) h
      | none => rw [ih rest (fun hm => h (List.mem_cons_of_mem c hm))]

theorem normPipes_id (t : Str) (h : '|' ∉ t) : normPipes t = t :=
  normPipesGo_id t.length t h

theorem patternStage_ws_only (s : Str) (h : ∀ x ∈ s, pySpace x = true) :
    patternStage s = s := by
  unfold patternStage searchPat1 searchPat2 searchPat3
  rw [scanSearch_none_of_space _ _ (fun c r hc _ => p1Trigger_space c r hc) s h,
    scanSearch_none_of_space _ _ (fun c r hc _ => p2Trigger_space c r hc) s h,
    scanSearch_none_of_space _ _ (fun c r hc _ => startsCI_active_space c r hc) s h]

theorem clean_ws_only (s : Str) (h : ∀ x ∈ s, pySpace x = true) :
    clean_ingredients_text (some s) = [] := by
  have hlt : '<' ∉ s := fun hm => absurd (h '<' hm) (by decide)
  show pyStrip (removeTokens batchTokenAlts (collapseWs (removeTags (patternStage s)))) = []
  rw [patternStage_ws_only s h, removeTags_id s hlt]
  rcases eq_or_ne s [] with rfl | hne
  · rfl
  · rw [collapseWs_all_space s hne h,
      removeTokens_batch_space [' '] (by intro x hx; rw [List.mem_singleton] at hx; subst hx; rfl)]
    rfl

/-- Does the string start with an ASCII alphanumeric character? -/
def headAlnumB : Str → Bool
  | [] => false
  | c :: _ => isAsciiAlnum c

/-- Does the string end with an ASCII alphanumeric character? -/
def lastAlnumB (x : Str) : Bool :=
  match x.getLast? with
  | some c => isAsciiAlnum c
  | none => false

/-- A well-formed ingredient name for the splitting step: at least two
characters, alphanumeric at both ends, and free of the comma, bullet and
pipe separators. -/
def goodName (n : Str) : Prop :=
  2 ≤ n.length ∧ headAlnumB n = true ∧ lastAlnumB n = true ∧
  ',' ∉ n ∧ '•' ∉ n ∧ '|' ∉ n

instance goodNameDec (n : Str) : Decidable (goodName n) := by
  unfold goodName
  exact inferInstance

theorem dropWhile_head_false (p : Char → Bool) (l : Str) (c : Char) (cs : Str)
    (h : l.dropWhile p = c :: cs) : p c = false := by
  induction l with
  | nil => simp at h
  | cons d rest ih =>
    rw [List.dropWhile_cons] at h
    split at h
    · exact ih h
    · rename_i hd
      rw [List.cons.injEq] at h
      rcases h with ⟨rfl, -⟩
      exact Bool.eq_false_iff.mpr hd

theorem pyStrip_of_alnum_ends (x : Str) (h1 : headAlnumB x = true)
    (h2 : lastAlnumB x = true) : pyStrip x = x := by
  apply pyStrip_eq_self
  · intro c hc
    cases x with
    | nil => simp at hc
    | cons d rest =>
      simp only [List.head?_cons, Option.some.injEq] at hc
      subst hc
      exact alnum_not_space _ (by simpa [headAlnumB] using h1)
  · intro c hc
    unfold lastAlnumB at h2
    rw [hc] at h2
    exact alnum_not_space c h2

theorem cleanItem_eq_self (n : Str) (h1 : headAlnumB n = true)
    (h2 : lastAlnumB n = true) : cleanItem n = n := by
  unfold cleanItem
  rw [pyStrip_of_alnum_ends n h1 h2]
  have hlead : dropLeadingNonAlnum n = n := by
    unfold dropLeadingNonAlnum
    cases n with
    | nil => rfl
    | cons c rest =>
      rw [List.dropWhile_cons_of_neg]
      simp only [headAlnumB] at h1
      simp [h1]
  rw [hlead]
  unfold dropTrailingNonAlnum
  unfold lastAlnumB at h2
  cases hgl : n.getLast? with
  | none =>
    rw [hgl] at h2
    exact absurd (show (false : Bool) = true from h2) (by simp)
  | some c =>
    rw [hgl] at h2
    exact dropTrailing_eq_self _ n c hgl
      (by simp [show isAsciiAlnum c = true from h2])

theorem cleanItem_space_pre (pre n : Str) (hpre : ∀ x ∈ pre, pySpace x = true) :
    cleanItem (pre ++ n) = cleanItem n := by
  unfold cleanItem
  rw [pyStrip_append_space pre n hpre]

theorem cleanItem_subset (i : Str) (x : Char) (h : x ∈ cleanItem i) : x ∈ i := by
  unfold cleanItem dropTrailingNonAlnum dropLeadingNonAlnum at h
  exact pyStrip_subset i x
    ((List.dropWhile_sublist _).subset (dropTrailing_subset _ _ _ h))

theorem processItems_cons (i : Str) (ps : List Str) :
    processItems (i :: ps) =
      (if 1 < (cleanItem i).length then cleanItem i :: processItems ps
       else processItems ps) := by
  unfold processItems
  rw [List.filterMap_cons]
  split_ifs with hl <;> simp [hl]

theorem processItems_join (pre : Str) (hpre : ∀ x ∈ pre, pySpace x = true)
    (hprec : ',' ∉ pre) (ns : List Str) (h : ∀ n ∈ ns, goodName n) (hne : ns ≠ []) :
    processItems (splitComma (pre ++ joinCS ns)) = ns := by
  induction ns generalizing pre with
  | nil => exact absurd rfl hne
  | cons x xs ih =>
    obtain ⟨hlen, hhead, hlast, hcomma, -, -⟩ := h x (List.mem_cons_self x xs)
    have hitem : cleanItem (pre ++ x) = x := by
      rw [cleanItem_space_pre pre x hpre, cleanItem_eq_self x hhead hlast]
    cases xs with
    | nil =>
      have hnc : ',' ∉ pre ++ x := by
        intro hm
        rcases List.mem_append.mp hm with hm | hm
        · exact hprec hm
        · exact hcomma hm
      rw [show joinCS [x] = x from rfl, splitComma_of_no_comma _ hnc,
        processItems_cons, hitem, if_pos (by omega)]
      rfl
    | cons y ys =>
      have hnc : ',' ∉ pre ++ x := by
        intro hm
        rcases List.mem_append.mp hm with hm | hm
        · exact hprec hm
        · exact hcomma hm
      have hjoin : pre ++ joinCS (x :: y :: ys) =
          (pre ++ x) ++ ',' :: (' ' :: joinCS (y :: ys)) := by
        rw [show joinCS (x :: y :: ys) = x ++ ',' :: ' ' :: joinCS (y :: ys) from rfl]
        simp [List.append_assoc]
      rw [hjoin, splitComma_append _ _ hnc, processItems_cons, hitem, if_pos (by omega)]
      rw [show (' ' :: joinCS (y :: ys)) = [' '] ++ joinCS (y :: ys) from rfl]
      rw [ih [' '] (by intro z hz; rw [List.mem_singleton] at hz; subst hz; rfl)
        (by simp) (fun n hn => h n (List.mem_cons_of_mem x hn)) (by simp)]

theorem processItems_good (ps : List Str) (hc : ∀ p ∈ ps, ',' ∉ p) (x : Str)
    (hx : x ∈ processItems ps) :
    2 ≤ x.length ∧ headAlnumB x = true ∧ lastAlnumB x = true ∧ ',' ∉ x := by
  unfold processItems at hx
  rw [List.mem_filterMap] at hx
  obtain ⟨i, hi, hfi⟩ := hx
  simp only at hfi
  split at hfi
  · rename_i hl
    rw [Option.some.injEq] at hfi
    subst hfi
    refine ⟨by omega, ?_, ?_, ?_⟩
    · -- head of the cleaned item is alphanumeric
      unfold cleanItem dropTrailingNonAlnum
      cases hz : dropLeadingNonAlnum (pyStrip i) with
      | nil =>
        unfold cleanItem dropTrailingNonAlnum at hl
        rw [hz] at hl
        simp [dropTrailing] at hl
      | cons d z =>
        have hd : (!isAsciiAlnum d) = false := by
          unfold dropLeadingNonAlnum at hz
          exact dropWhile_head_false _ _ _ _ hz
        cases hdt : dropTrailing (fun c => !isAsciiAlnum c) (d :: z) with
        | nil =>
          unfold cleanItem dropTrailingNonAlnum at hl
          rw [hz, hdt] at hl
          simp at hl
        | cons e r =>
          have heq := dropTrailing_head (fun c => !isAsciiAlnum c) d e z r hdt
          subst heq
          simpa [headAlnumB] using hd
    · -- last character of the cleaned item is alphanumeric
      unfold lastAlnumB
      cases hgl : (cleanItem i).getLast? with
      | none =>
        rw [List.getLast?_eq_none_iff] at hgl
        rw [hgl] at hl
        simp at hl
      | some c =>
        have hlast := dropTrailing_last (fun c => !isAsciiAlnum c) _ c hgl
        simpa using hlast
    · exact fun hm => hc i hi (cleanItem_subset i ',' hm)
  · simp at hfi

theorem processItems_good_head (ps : List Str) (hc : ∀ p ∈ ps, ',' ∉ p) (x : Str)
    (hx : x ∈ processItems ps) : pyStrip x = x :=
  pyStrip_of_alnum_ends x (processItems_good ps hc x hx).2.1
    (processItems_good ps hc x hx).2.2.1

theorem stripKeep_eq_some (i x : Str) (hitem : pyStrip i = x) (hxne : x ≠ []) :
    stripKeep i = some x := by
  unfold stripKeep
  rw [hitem, if_neg (by simpa [List.isEmpty_iff] using hxne)]

theorem jsonify_join_aux (pre : Str) (hpre : ∀ x ∈ pre, pySpace x = true)
    (hprec : ',' ∉ pre) (l : List Str)
    (h : ∀ x ∈ l, x ≠ [] ∧ ',' ∉ x ∧ pyStrip x = x) (hne : l ≠ []) :
    (splitComma (pre ++ joinCS l)).filterMap stripKeep = l := by
  induction l generalizing pre with
  | nil => exact absurd rfl hne
  | cons x xs ih =>
    obtain ⟨hxne, hcomma, hstrip⟩ := h x (List.mem_cons_self x xs)
    have hitem : pyStrip (pre ++ x) = x := by
      rw [pyStrip_append_space pre x hpre, hstrip]
    have hnc : ',' ∉ pre ++ x := by
      intro hm
      rcases List.mem_append.mp hm with hm | hm
      · exact hprec hm
      · exact hcomma hm
    cases xs with
    | nil =>
      rw [show joinCS [x] = x from rfl, splitComma_of_no_comma _ hnc,
        List.filterMap_cons, stripKeep_eq_some _ _ hitem hxne]
      rfl
    | cons y ys =>
      have hjoin : pre ++ joinCS (x :: y :: ys) =
          (pre ++ x) ++ ',' :: (' ' :: joinCS (y :: ys)) := by
        rw [show joinCS (x :: y :: ys) = x ++ ',' :: ' ' :: joinCS (y :: ys) from rfl]
        simp [List.append_assoc]
      rw [hjoin, splitComma_append _ _ hnc, List.filterMap_cons,
        stripKeep_eq_some _ _ hitem hxne]
      rw [show (' ' :: joinCS (y :: ys)) = [' '] ++ joinCS (y :: ys) from rfl]
      exact congrArg (List.cons x)
        (ih [' '] (by intro z hz; rw [List.mem_singleton] at hz; subst hz; rfl)
          (by simp) (fun n hn => h n (List.mem_cons_of_mem x hn)) (by simp))

theorem jsonify_join (l : List Str)
    (h : ∀ x ∈ l, x ≠ [] ∧ ',' ∉ x ∧ pyStrip x = x) :
    jsonifyList (joinCS l) = l := by
  cases l with
  | nil => rfl
  | cons x xs =>
    exact jsonify_join_aux [] (by simp) (by simp) (x :: xs) h (by simp)

theorem process_batch_fst {α : Type} (rows : List (Row α)) :
    (process_batch rows).1 = rows.map batchRowStep := by
  induction rows with
  | nil => rfl
  | cons r rs ih => simp [process_batch, ih]

/-- C1: the text-cleaning pipeline is claimed idempotent; this is false.  On
the input a-star-b the single pass removes the star and leaves a double
space, and a second pass collapses that double space, so applying
clean_ingredients_text to its own output changes it. -/
theorem C1_counterexample :
    clean_ingredients_text (some (clean_ingredients_text (some ("a * b".data)))) ≠
      clean_ingredients_text (some ("a * b".data)) := by
  decide

/-- C1 (amended): clean_ingredients_text applied to its own output returns
that output unchanged exactly when the first pass's output is a fixed point
of every stage of the pipeline (pattern extraction, tag removal, whitespace
collapse, token removal, strip); the counterexample shows this can fail, so
the pipeline is not idempotent in general. -/
theorem C1_idempotent_on_stage_fixed (s : Str)
    (h1 : patternStage (clean_ingredients_text (some s)) =
      clean_ingredients_text (some s))
    (h2 : removeTags (clean_ingredients_text (some s)) =
      clean_ingredients_text (some s))
    (h3 : collapseWs (clean_ingredients_text (some s)) =
      clean_ingredients_text (some s))
    (h4 : removeTokens batchTokenAlts (clean_ingredients_text (some s)) =
      clean_ingredients_text (some s))
    (h5 : pyStrip (clean_ingredients_text (some s)) =
      clean_ingredients_text (some s)) :
    clean_ingredients_text (some (clean_ingredients_text (some s))) =
      clean_ingredients_text (some s) := by
  generalize clean_ingredients_text (some s) = t at h1 h2 h3 h4 h5 ⊢
  show pyStrip (removeTokens batchTokenAlts (collapseWs (removeTags (patternStage t)))) = t
  rw [h1, h2, h3, h4, h5]

theorem C1_witness :
    clean_ingredients_text (some (clean_ingredients_text (some ("Aqua, Glycerin".data)))) =
      clean_ingredients_text (some ("Aqua, Glycerin".data)) :=
  C1_idempotent_on_stage_fixed ("Aqua, Glycerin".data)
    (by decide) (by decide) (by decide) (by decide) (by decide)

/-- C2: the claim says comma or semicolon delimited names each become one
list entry.  Semicolons are not delimiters: the two semicolon-delimited
names in this input yield a single entry, not two. -/
theorem C2_counterexample :
    extract_ingredients_list ("Aqua; Glycerin".data) = [("Aqua; Glycerin".data)] ∧
    ¬ (extract_ingredients_list ("Aqua; Glycerin".data)).length = 2 := by
  decide

/-- C2 (amended): for names delimited by commas (bullet and pipe separators
are normalized to commas; semicolons are not delimiters), each well-formed
name, at least two characters long, alphanumeric at both ends and free of
separators, becomes exactly one list entry: the splitting step returns
exactly the given names, so the list length equals the number of names. -/
theorem C2_amended (ns : List Str) (h : ∀ n ∈ ns, goodName n) :
    extract_ingredients_list (joinCS ns) = ns ∧
    (extract_ingredients_list (joinCS ns)).length = ns.length := by
  have hmain : extract_ingredients_list (joinCS ns) = ns := by
    cases ns with
    | nil => rfl
    | cons x xs =>
      have hgood := h x (List.mem_cons_self x xs)
      have hne : (joinCS (x :: xs)).isEmpty = false := by
        have hx2 : x ≠ [] := by
          intro hx
          have := hgood.1
          rw [hx] at this
          simp at this
        cases xs with
        | nil =>
          simpa [joinCS, List.isEmpty_iff] using hx2
        | cons y ys =>
          rcases x with - | ⟨c, cs⟩
          · exact absurd rfl hx2
          · rfl
      have hnb : '•' ∉ joinCS (x :: xs) := by
        intro hm
        rcases mem_joinCS _ _ hm with hc | hc | ⟨n, hn, hc⟩
        · exact absurd hc (by decide)
        · exact absurd hc (by decide)
        · exact (h n hn).2.2.2.2.1 hc
      have hnp : '|' ∉ joinCS (x :: xs) := by
        intro hm
        rcases mem_joinCS _ _ hm with hc | hc | ⟨n, hn, hc⟩
        · exact absurd hc (by decide)
        · exact absurd hc (by decide)
        · exact (h n hn).2.2.2.2.2 hc
      unfold extract_ingredients_list
      rw [hne, normBullets_id _ hnb, normPipes_id _ hnp,
        if_neg (show ¬ ((false : Bool) = true) by simp)]
      exact processItems_join [] (by simp) (by simp) (x :: xs) h (by simp)
  exact ⟨hmain, by rw [hmain]⟩

theorem C2_witness :
    extract_ingredients_list (joinCS [("Aqua".data), ("Sodium Laureth Sulfate".data)]) =
        [("Aqua".data), ("Sodium Laureth Sulfate".data)] ∧
      (extract_ingredients_list
        (joinCS [("Aqua".data), ("Sodium Laureth Sulfate".data)])).length = 2 :=
  C2_amended [("Aqua".data), ("Sodium Laureth Sulfate".data)] (by decide)

/-- C3: missing, non-string or whitespace-only ingredients values never make
the cleanup scripts fail: clean_ingredients_text returns the empty string,
extract_and_clean_ingredients returns the empty string and the empty list
(both total functions, so no exception is modelled or possible), and
process_batch keeps one output row per input row, returning such rows
entirely unchanged. -/
theorem C3 {α : Type} :
    clean_ingredients_text none = [] ∧
    extract_and_clean_ingredients none = ([], []) ∧
    (∀ s : Str, (∀ c ∈ s, pySpace c = true) →
      clean_ingredients_text (some s) = [] ∧
      extract_and_clean_ingredients (some s) = ([], [])) ∧
    (∀ rows : List (Row α), (process_batch rows).1 = rows.map batchRowStep) ∧
    (∀ r : Row α, r.ingredients = none → batchRowStep r = r) ∧
    (∀ (r : Row α) (s : Str), r.ingredients = some s → (∀ c ∈ s, pySpace c = true) →
      batchRowStep r = r) := by
  refine ⟨rfl, rfl, ?_, process_batch_fst, ?_, ?_⟩
  · intro s hs
    refine ⟨clean_ws_only s hs, ?_⟩
    show (if (pyStrip s).isEmpty then (([], []) : Str × List Str) else _) = ([], [])
    rw [pyStrip_nil_of_space s hs]
    rfl
  · intro r hr
    unfold batchRowStep
    rw [hr]
  · intro r s hr hs
    unfold batchRowStep
    rw [hr]
    show (if (pyStrip s).isEmpty = true then r else _) = r
    rw [pyStrip_nil_of_space s hs]
    rfl

theorem C3_witness :
    clean_ingredients_text (some ("  ".data)) = [] ∧
    extract_and_clean_ingredients (some (" ".data)) = ([], []) ∧
    batchRowStep (⟨none, none, none, ()⟩ : Row Unit) = ⟨none, none, none, ()⟩ ∧
    batchRowStep (⟨some (" ".data), none, none, ()⟩ : Row Unit) =
      ⟨some (" ".data), none, none, ()⟩ :=
  ⟨((C3 (α := Unit)).2.2.1 ("  ".data) (by decide)).1,
   ((C3 (α := Unit)).2.2.1 (" ".data) (by decide)).2,
   (C3 (α := Unit)).2.2.2.2.1 _ rfl,
   (C3 (α := Unit)).2.2.2.2.2 _ (" ".data) rfl (by decide)⟩

/-- C7: every element of the list produced by the splitting step, in both
extract_ingredients_list and extract_and_clean_ingredients, is a normalized
comma-free name: no comma, at least two characters, and alphanumeric first
and last characters. -/
theorem C7 (t x : Str)
    (hx : x ∈ extract_ingredients_list t ∨
      x ∈ (extract_and_clean_ingredients (some t)).2) :
    ',' ∉ x ∧ 2 ≤ x.length ∧ headAlnumB x = true ∧ lastAlnumB x = true := by
  have key : ∀ u : Str, x ∈ processItems (splitComma u) →
      ',' ∉ x ∧ 2 ≤ x.length ∧ headAlnumB x = true ∧ lastAlnumB x = true := by
    intro u hu
    have hg := processItems_good (splitComma u)
      (fun p hp => mem_splitComma_no_comma u p hp) x hu
    exact ⟨hg.2.2.2, hg.1, hg.2.1, hg.2.2.1⟩
  rcases hx with hx | hx
  · unfold extract_ingredients_list at hx
    split at hx
    · simp at hx
    · exact key _ hx
  · unfold extract_and_clean_ingredients at hx
    split at hx
    · simp at hx
    · split at hx
      · simp at hx
      · exact key _ hx

theorem C7_witness :
    ',' ∉ ("Aqua".data) ∧ 2 ≤ ("Aqua".data).length ∧
    headAlnumB ("Aqua".data) = true ∧ lastAlnumB ("Aqua".data) = true :=
  C7 ("Aqua, Glycerin".data) ("Aqua".data) (Or.inl (by decide))

/-- A concrete page for the selector-cascade counterexample: the first
specific ingredient selector matches an element (a non-empty match) whose
text fails the content validation, and a later selector matches a real
ingredients element. -/
def pageCE : Str → List Elem := fun sel =>
  if sel = (".product-ingredients".data) then [⟨"hello there, friend".data⟩]
  else if sel = (".ingredients-list".data) then
    [⟨"Ingredients: Aqua, Water, Glycerin, Parfum".data⟩]
  else []

/-- C5: the claim says every selector cascade returns the first selector's
non-empty match and consults no later selector.  In extract_ingredients the
first selector yields a non-empty match here, yet the stage's result comes
from a later selector, because matched elements are content-validated and
rejected matches fall through. -/
theorem C5_counterexample :
    pageCE (".product-ingredients".data) ≠ [] ∧
    ingredientSelectorsStage pageCE = some ("Aqua, Water, Glycerin, Parfum".data) ∧
    ingredientSelectorsStage pageCE ≠ some (pyStrip ("hello there, friend".data)) := by
  refine ⟨by decide, by decide, by decide⟩

/-- C5 (amended): the select_one cascades (such as the brand cascade of
scrape_with_extended_timeout) do return the stripped text of the first
selector whose lookup yields an element, independently of all later
selectors; the ingredient selector cascade of extract_ingredients
additionally content-validates each matched element and falls through to
later selectors when validation fails, so there an earlier non-empty match
need not be the returned value. -/
theorem C5_amended (page : Str → Option Elem) (pre post : List Str) (sel : Str)
    (e : Elem) (hpre : ∀ s ∈ pre, page s = none) (hsel : page sel = some e) :
    brandCascade page (pre ++ sel :: post) = some (pyStrip e.text) := by
  induction pre with
  | nil =>
    show brandCascade page (sel :: post) = _
    unfold brandCascade
    rw [hsel]
  | cons a rest ih =>
    rw [List.cons_append]
    show (match page a with
      | some e => some (pyStrip e.text)
      | none => brandCascade page (rest ++ sel :: post)) = _
    rw [hpre a (List.mem_cons_self a rest)]
    exact ih (fun s hs => hpre s (List.mem_cons_of_mem a hs))

/-- Concrete page for the brand-cascade witness. -/
def pageW : Str → Option Elem := fun sel =>
  if sel = (".product-brand".data) then some ⟨" Nivea ".data⟩ else none

theorem C5_witness :
    brandCascade pageW brandSelectorList = some (pyStrip (" Nivea ".data)) :=
  C5_amended pageW [("a.product-details-tile__brand".data)]
    [(".brand-name".data), (".product-info__brand".data)]
    (".product-brand".data) ⟨" Nivea ".data⟩ (by decide) (by decide)

/-- C9: process_batch of batch_fix_ingredients.py returns exactly one output
row per input row, in input order (the output list is the map of the row
body over the input), the row body never changes any field other than
ingredients, ingredients_count and ingredients_list, and a row with missing
or whitespace-only ingredients, or whose cleaned text yields no ingredients,
is returned entirely unchanged. -/
theorem C9 {α : Type} (rows : List (Row α)) :
    (process_batch rows).1 = rows.map batchRowStep ∧
    (∀ r : Row α, (batchRowStep r).rest = r.rest) ∧
    (∀ r : Row α, r.ingredients = none → batchRowStep r = r) ∧
    (∀ (r : Row α) (s : Str), r.ingredients = some s →
      ((pyStrip s).isEmpty = true ∨
        extract_ingredients_list (clean_ingredients_text (some s)) = []) →
      batchRowStep r = r) := by
  refine ⟨process_batch_fst rows, ?_, ?_, ?_⟩
  · intro r
    unfold batchRowStep
    cases hr : r.ingredients with
    | none => rfl
    | some s =>
      split
      · rfl
      · dsimp only
        rename_i o t heq
        by_cases hc :
          (extract_ingredients_list (clean_ingredients_text (some t))).isEmpty = true
        · split <;> rfl
        · split <;> rfl
  · intro r hr
    unfold batchRowStep
    rw [hr]
  · intro r s hr hcond
    unfold batchRowStep
    rw [hr]
    rcases hcond with hws | hlist
    · show (if (pyStrip s).isEmpty = true then r else _) = r
      rw [hws]
      rfl
    · show (if (pyStrip s).isEmpty = true then r else _) = r
      split
      · rfl
      · show (if (extract_ingredients_list (clean_ingredients_text (some s))).isEmpty = true
          then r else _) = r
        rw [hlist]
        rfl

theorem C9_witness :
    (process_batch [(⟨some ("Aqua, Glycerin".data), none, none, ()⟩ : Row Unit)]).1 =
      [(⟨some ("Aqua, Glycerin".data), none, none, ()⟩ : Row Unit)].map batchRowStep ∧
    (batchRowStep (⟨some ("x".data), some 7, some ("x".data), ()⟩ : Row Unit)).rest = () ∧
    batchRowStep (⟨some ("x".data), some 7, some ("x".data), ()⟩ : Row Unit) =
      ⟨some ("x".data), some 7, some ("x".data), ()⟩ :=
  ⟨(C9 [(⟨some ("Aqua, Glycerin".data), none, none, ()⟩ : Row Unit)]).1,
   (C9 ([] : List (Row Unit))).2.1 _,
   (C9 ([] : List (Row Unit))).2.2.2 _ ("x".data) rfl (Or.inr (by decide))⟩

theorem extract_elements_good (u x : Str) (hx : x ∈ processItems (splitComma u)) :
    x ≠ [] ∧ ',' ∉ x ∧ pyStrip x = x := by
  have hg := processItems_good (splitComma u)
    (fun p hp => mem_splitComma_no_comma u p hp) x hx
  refine ⟨?_, hg.2.2.2, pyStrip_of_alnum_ends x hg.2.1 hg.2.2.1⟩
  intro hnil
  rw [hnil] at hg
  have := hg.1
  simp at this

theorem extract_ingredients_list_good (t : Str) :
    ∀ x ∈ extract_ingredients_list t, x ≠ [] ∧ ',' ∉ x ∧ pyStrip x = x := by
  intro x hx
  unfold extract_ingredients_list at hx
  split at hx
  · simp at hx
  · exact extract_elements_good _ x hx

theorem eac_list_good (o : Option Str) :
    ∀ x ∈ (extract_and_clean_ingredients o).2, x ≠ [] ∧ ',' ∉ x ∧ pyStrip x = x := by
  intro x hx
  cases o with
  | none => simp [extract_and_clean_ingredients] at hx
  | some t =>
    unfold extract_and_clean_ingredients at hx
    split at hx
    · simp at hx
    · split at hx
      · simp at hx
      · exact extract_elements_good _ x hx

theorem sample_list_good (o : Option Str) :
    ∀ x ∈ (sample_extract_and_clean_ingredients o).2,
      x ≠ [] ∧ ',' ∉ x ∧ pyStrip x = x := by
  intro x hx
  cases o with
  | none => simp [sample_extract_and_clean_ingredients] at hx
  | some t =>
    unfold sample_extract_and_clean_ingredients at hx
    split at hx
    · simp at hx
    · split at hx
      · simp at hx
      · exact extract_elements_good _ x hx

/-- C8: every record-update site that writes ingredients_list also writes
ingredients_count in the same step with the count equal to the number of
elements of the written list — the scraper page-extraction body and the
progress-file fixup set both from the same inline list, and the four
cleanup row bodies (batch_fix_ingredients.py, final_fix_ingredients.py,
fix_ingredients_list.py, fix_sample.py) either leave both fields untouched
or set the count to the length of the extracted list and the list field to
its comma-space join, which parses back to exactly that list — but not
every code path that writes ingredients_list does: the save_to_csv
conversion rewrites ingredients_list to the joined string while leaving
ingredients_count exactly as it was (though for well-formed stored lists
the join still parses back to the same number of elements), and the backup
advanced scraper initializes ingredients_list in a record that has no
ingredients_count field at all. -/
theorem C8 :
    (∀ (pd : ProductData) (p : PageData) (t : Str), p.ingredients = some t →
      t.isEmpty = false →
      (applyExtractions pd p).ingredients_count = some (scraperCountList t).length ∧
      (applyExtractions pd p).ingredients_list = some (scraperCountList t)) ∧
    (∀ (α : Type) (r : Row α), batchRowStep r = r ∨
      ∃ l, l ≠ [] ∧ (batchRowStep r).ingredients_count = some l.length ∧
        (batchRowStep r).ingredients_list = some (joinCS l) ∧
        jsonifyList (joinCS l) = l) ∧
    (∀ (α : Type) (r : Row α), finalRowStep r = r ∨
      ∃ l, l ≠ [] ∧ (finalRowStep r).ingredients_count = some l.length ∧
        (finalRowStep r).ingredients_list = some (joinCS l) ∧
        jsonifyList (joinCS l) = l) ∧
    (∀ (α : Type) (r : Row α), fixDbRowStep r = r ∨
      ∃ l, l ≠ [] ∧ (fixDbRowStep r).ingredients_count = some l.length ∧
        (fixDbRowStep r).ingredients_list = some (joinCS l) ∧
        jsonifyList (joinCS l) = l) ∧
    (∀ (α : Type) (r : Row α), sampleRowStep r = r ∨
      ∃ l, l ≠ [] ∧ (sampleRowStep r).ingredients_count = some l.length ∧
        (sampleRowStep r).ingredients_list = some (joinCS l) ∧
        jsonifyList (joinCS l) = l) ∧
    (∀ (pd : ProductData) (t : Str), pd.ingredients = some t →
      t.isEmpty = false → pd.ingredients_list = none →
      (progressFixupStep pd).ingredients_count = some (scraperCountList t).length ∧
      (progressFixupStep pd).ingredients_list = some (scraperCountList t)) ∧
    (∀ pd : ProductData,
      (save_to_csv_row pd).ingredients_count = pd.ingredients_count ∧
      (save_to_csv_row pd).ingredients_list = pd.ingredients_list.map joinCS) ∧
    (∀ (pd : ProductData) (l : List Str), pd.ingredients_list = some l →
      (∀ x ∈ l, x ≠ [] ∧ ',' ∉ x ∧ pyStrip x = x) →
      (save_to_csv_row pd).ingredients_list = some (joinCS l) ∧
      (jsonifyList (joinCS l)).length = l.length) ∧
    (∀ url pid date : Str, (initAdvProduct url pid date).ingredients_list = []) := by
  refine ⟨?_, ?_, ?_, ?_, ?_, ?_, ?_, ?_, ?_⟩
  · intro pd p t hp ht
    refine ⟨?_, ?_⟩ <;> simp [applyExtractions, hp, ht]
  · intro α r
    unfold batchRowStep
    split
    · left
      rfl
    · rename_i s heq
      by_cases hws : (pyStrip s).isEmpty = true
      · left
        rw [if_pos hws]
      · rw [if_neg hws]
        dsimp only
        by_cases hl :
            (extract_ingredients_list (clean_ingredients_text (some s))).isEmpty = true
        · left
          rw [if_pos hl]
        · right
          refine ⟨extract_ingredients_list (clean_ingredients_text (some s)),
            ?_, ?_, ?_, jsonify_join _ (extract_ingredients_list_good _)⟩
          · intro h0
            rw [h0] at hl
            simp at hl
          · rw [if_neg hl]
          · rw [if_neg hl]
  · intro α r
    unfold finalRowStep
    dsimp only
    by_cases hl : (extract_and_clean_ingredients r.ingredients).2.isEmpty = true
    · left
      rw [if_pos hl]
    · right
      refine ⟨(extract_and_clean_ingredients r.ingredients).2,
        ?_, ?_, ?_, jsonify_join _ (eac_list_good _)⟩
      · intro h0
        rw [h0] at hl
        simp at hl
      · rw [if_neg hl]
      · rw [if_neg hl]
  · intro α r
    unfold fixDbRowStep
    split
    · left
      rfl
    · rename_i s heq
      by_cases hws : (pyStrip s).isEmpty = true
      · left
        rw [if_pos hws]
      · rw [if_neg hws]
        dsimp only
        by_cases hl :
            (extract_ingredients_list (clean_ingredients_text (some s))).isEmpty = true
        · left
          rw [if_pos hl]
        · right
          refine ⟨extract_ingredients_list (clean_ingredients_text (some s)),
            ?_, ?_, ?_, jsonify_join _ (extract_ingredients_list_good _)⟩
          · intro h0
            rw [h0] at hl
            simp at hl
          · rw [if_neg hl]
          · rw [if_neg hl]
  · intro α r
    unfold sampleRowStep
    dsimp only
    by_cases hl :
        (sample_extract_and_clean_ingredients r.ingredients).2.isEmpty = true
    · left
      rw [if_pos hl]
    · right
      refine ⟨(sample_extract_and_clean_ingredients r.ingredients).2,
        ?_, ?_, ?_, jsonify_join _ (sample_list_good _)⟩
      · intro h0
        rw [h0] at hl
        simp at hl
      · rw [if_neg hl]
      · rw [if_neg hl]
  · intro pd t hpt hne hl
    constructor <;> simp [progressFixupStep, hpt, hne, hl]
  · intro pd
    exact ⟨rfl, rfl⟩
  · intro pd l hl hg
    refine ⟨?_, by rw [jsonify_join l hg]⟩
    show pd.ingredients_list.map joinCS = some (joinCS l)
    rw [hl]
    rfl
  · intro url pid date
    rfl

theorem uniqueFirstGo_sub (seen l : List Str) (x : Str)
    (h : x ∈ uniqueFirstGo seen l) : x ∈ l := by
  induction l generalizing seen with
  | nil => simp [uniqueFirstGo] at h
  | cons y ys ih =>
    unfold uniqueFirstGo at h
    split at h
    · exact List.mem_cons_of_mem y (ih _ h)
    · rcases List.mem_cons.mp h with rfl | h
      · exact List.mem_cons_self x ys
      · exact List.mem_cons_of_mem y (ih _ h)

theorem uniqueFirstGo_nodup (seen l : List Str) :
    (uniqueFirstGo seen l).Nodup ∧ ∀ x ∈ uniqueFirstGo seen l, x ∉ seen := by
  induction l generalizing seen with
  | nil => simp [uniqueFirstGo]
  | cons y ys ih =>
    unfold uniqueFirstGo
    split
    · exact ih seen
    · rename_i hy
      obtain ⟨hnd, hns⟩ := ih (y :: seen)
      refine ⟨List.nodup_cons.mpr ⟨?_, hnd⟩, ?_⟩
      · intro hmem
        exact hns y hmem (List.mem_cons_self y seen)
      · intro x hx
        rcases List.mem_cons.mp hx with rfl | hx
        · exact hy
        · exact fun hs => hns x hx (List.mem_cons_of_mem y hs)

theorem read_ok_eq (f : CsvFile) :
    read_product_urls_from_boots_csv (.ok f) =
      (if urlColumn ∈ f.columns then uniqueFirstGo [] ((f.col urlColumn).filterMap id)
       else
         match f.columns.filter (fun c => containsCI "oct-link".data c &&
           containsCI "href".data c) with
         | [] => []
         | c :: _ => uniqueFirstGo [] ((f.col c).filterMap id)) := rfl

/-- C10: read_product_urls_from_boots_csv is a total function (no exception
escapes): a missing file, a read error, or a file with no recognized URL
column yields the empty list; on success the result has no duplicates and
every returned URL comes from a present (non-NaN) cell of some column. -/
theorem C10 :
    read_product_urls_from_boots_csv .missing = [] ∧
    read_product_urls_from_boots_csv .readError = [] ∧
    (∀ f : CsvFile, urlColumn ∉ f.columns →
      f.columns.filter (fun c => containsCI "oct-link".data c &&
        containsCI "href".data c) = [] →
      read_product_urls_from_boots_csv (.ok f) = []) ∧
    (∀ src : CsvSource, (read_product_urls_from_boots_csv src).Nodup) ∧
    (∀ (f : CsvFile) (u : Str), u ∈ read_product_urls_from_boots_csv (.ok f) →
      ∃ c, some u ∈ f.col c) := by
  refine ⟨rfl, rfl, ?_, ?_, ?_⟩
  · intro f h1 h2
    rw [read_ok_eq, if_neg h1, h2]
  · intro src
    cases src with
    | missing => simp [read_product_urls_from_boots_csv]
    | readError => simp [read_product_urls_from_boots_csv]
    | ok f =>
      rw [read_ok_eq]
      split
      · exact (uniqueFirstGo_nodup [] _).1
      · split
        · simp
        · exact (uniqueFirstGo_nodup [] _).1
  · intro f u hu
    rw [read_ok_eq] at hu
    split at hu
    · refine ⟨urlColumn, ?_⟩
      have hsub := uniqueFirstGo_sub [] _ u hu
      rw [List.mem_filterMap] at hsub
      obtain ⟨o, ho, heq⟩ := hsub
      rw [show id o = o from rfl] at heq
      subst heq
      exact ho
    · split at hu
      · simp at hu
      · rename_i c rest heq
        refine ⟨c, ?_⟩
        have hsub := uniqueFirstGo_sub [] _ u hu
        rw [List.mem_filterMap] at hsub
        obtain ⟨o, ho, heqo⟩ := hsub
        rw [show id o = o from rfl] at heqo
        subst heqo
        exact ho

theorem C10_witness :
    read_product_urls_from_boots_csv .missing = [] ∧
    (read_product_urls_from_boots_csv
      (.ok ⟨[("name".data)], fun _ => []⟩)) = [] ∧
    (read_product_urls_from_boots_csv
      (.ok ⟨[(urlColumn)], fun _ => [some ("u1".data), none, some ("u1".data)]⟩)).Nodup ∧
    (∃ c, some ("u1".data) ∈
      (fun _ => [some ("u1".data), none] : Str → List (Option Str)) c) :=
  ⟨C10.1,
   C10.2.2.1 ⟨[("name".data)], fun _ => []⟩ (by decide) (by decide),
   C10.2.2.2.1 _,
   C10.2.2.2.2 ⟨[(urlColumn)], fun _ => [some ("u1".data), none]⟩ ("u1".data)
     (by decide)⟩

theorem applyExtractions_url (pd : ProductData) (p : PageData) :
    (applyExtractions pd p).url = pd.url := by
  unfold applyExtractions
  split
  · split <;> rfl
  · rfl

theorem applyExtractions_ts (pd : ProductData) (p : PageData) :
    (applyExtractions pd p).scrape_timestamp = pd.scrape_timestamp := by
  unfold applyExtractions
  split
  · split <;> rfl
  · rfl

theorem scrapeAttempts_url (outs : Nat → FetchOutcome) :
    ∀ (rem retries : Nat) (pd : ProductData),
      (scrapeAttempts outs rem retries pd).url = pd.url ∧
      (scrapeAttempts outs rem retries pd).scrape_timestamp = pd.scrape_timestamp := by
  intro rem
  induction rem with
  | zero => exact fun _ _ => ⟨rfl, rfl⟩
  | succ rem ih =>
    intro retries pd
    unfold scrapeAttempts
    cases outs retries with
    | exn => exact ih _ _
    | rateLimited => exact ih _ _
    | badStatus code => exact ih _ _
    | pageOk p =>
      dsimp only
      split
      · exact ⟨applyExtractions_url pd p, applyExtractions_ts pd p⟩
      · refine ⟨?_, ?_⟩
        · rw [(ih _ _).1, applyExtractions_url]
        · rw [(ih _ _).2, applyExtractions_ts]

/-- The extraction results of a page from which nothing could be
extracted. -/
def emptyPage : PageData :=
  ⟨none, none, none, none, none, none, none⟩

/-- A fetch-loop outcome that leaves the record unchanged: an exception, a
429 response, another bad status, or a parsed page from which no field was
extracted. -/
def failedOutcomeB : FetchOutcome → Bool
  | .pageOk p => p == emptyPage
  | _ => true

theorem applyExtractions_empty (url ts : Str) :
    applyExtractions (initProduct url ts) emptyPage = initProduct url ts := rfl

theorem scrapeAttempts_allfail (outs : Nat → FetchOutcome) (url ts : Str) :
    ∀ rem retries,
      (∀ i, retries ≤ i → i < retries + rem → failedOutcomeB (outs i) = true) →
      scrapeAttempts outs rem retries (initProduct url ts) = initProduct url ts := by
  intro rem
  induction rem with
  | zero => exact fun _ _ => rfl
  | succ rem ih =>
    intro retries hfail
    have hnext : ∀ i, retries + 1 ≤ i → i < retries + 1 + rem →
        failedOutcomeB (outs i) = true :=
      fun i h1 h2 => hfail i (by omega) (by omega)
    unfold scrapeAttempts
    cases houts : outs retries with
    | exn => exact ih _ hnext
    | rateLimited => exact ih _ hnext
    | badStatus code => exact ih _ hnext
    | pageOk p =>
      have hp : p = emptyPage := by
        have := hfail retries (by omega) (by omega)
        rw [houts] at this
        exact eq_of_beq this
      subst hp
      dsimp only
      rw [applyExtractions_empty]
      rw [if_neg (show ¬ (meaningful (initProduct url ts) = true) by
        simp [meaningful, initProduct, truthyStr])]
      exact ih _ hnext

/-- C4: scrape_boots_product always returns a product record and never
propagates an exception (it is a total function of the fetch-outcome
oracle): the url and the entry timestamp are always set in the returned
record, and when every iteration fails (errors, bad statuses, or pages with
no extractable field) the returned record is exactly the initialized one,
every unextracted field still at its None default. -/
theorem C4 (url ts : Str) (outs : Nat → FetchOutcome) :
    (scrape_boots_product url ts outs).url = url ∧
    (scrape_boots_product url ts outs).scrape_timestamp = ts ∧
    ((∀ i, i < MAX_RETRIES → failedOutcomeB (outs i) = true) →
      scrape_boots_product url ts outs = initProduct url ts) := by
  refine ⟨(scrapeAttempts_url outs _ _ _).1, (scrapeAttempts_url outs _ _ _).2, ?_⟩
  intro hfail
  exact scrapeAttempts_allfail outs url ts MAX_RETRIES 0
    (fun i h1 h2 => hfail i (by omega))

theorem C4_witness :
    scrape_boots_product ("u".data) ("t".data) (fun _ => FetchOutcome.exn) =
      initProduct ("u".data) ("t".data) :=
  (C4 ("u".data) ("t".data) (fun _ => FetchOutcome.exn)).2.2 (fun i _ => rfl)

theorem scrapeIterCount_le (outs : Nat → FetchOutcome) :
    ∀ (rem retries : Nat) (pd : ProductData),
      scrapeIterCount outs rem retries pd ≤ rem := by
  intro rem
  induction rem with
  | zero => intro _ _; exact Nat.le_refl 0
  | succ rem ih =>
    intro retries pd
    unfold scrapeIterCount
    cases outs retries with
    | exn =>
      show 1 + scrapeIterCount outs rem (retries + 1) pd ≤ rem + 1
      have := ih (retries + 1) pd
      omega
    | rateLimited =>
      show 1 + scrapeIterCount outs rem (retries + 1) pd ≤ rem + 1
      have := ih (retries + 1) pd
      omega
    | badStatus code =>
      show 1 + scrapeIterCount outs rem (retries + 1) pd ≤ rem + 1
      have := ih (retries + 1) pd
      omega
    | pageOk p =>
      show (if meaningful (applyExtractions pd p) = true then 1
        else 1 + scrapeIterCount outs rem (retries + 1) (applyExtractions pd p)) ≤ rem + 1
      split
      · omega
      · have := ih (retries + 1) (applyExtractions pd p)
        omega

theorem navAttemptCount_le (ok : Nat → Bool) :
    ∀ rem attempt, navAttemptCount ok rem attempt ≤ rem := by
  intro rem
  induction rem with
  | zero => intro _; exact Nat.le_refl 0
  | succ rem ih =>
    intro attempt
    unfold navAttemptCount
    split
    · omega
    · split
      · omega
      · have := ih (attempt + 1); omega

theorem navLoop_sleeps (ok : Nat → Bool) (rand : Nat → ℚ) :
    ∀ (rem attempt : Nat) (q : ℚ), q ∈ (navLoop ok rand rem attempt).2 →
      ∃ a, attempt ≤ a ∧ a + 1 < attempt + rem ∧ ok a = false ∧
        q = 2 ^ a * rand a := by
  intro rem
  induction rem with
  | zero => intro attempt q hq; simp [navLoop] at hq
  | succ rem ih =>
    intro attempt q hq
    unfold navLoop at hq
    split at hq
    · simp at hq
    · split at hq
      · simp at hq
      · rename_i hok hrem
        rcases List.mem_cons.mp hq with rfl | hq
        · exact ⟨attempt, Nat.le_refl _, by omega, Bool.eq_false_iff.mpr hok, rfl⟩
        · obtain ⟨a, h1, h2, h3, h4⟩ := ih (attempt + 1) q hq
          exact ⟨a, by omega, by omega, h3, h4⟩

/-- C6: the retry loops perform a bounded number of iterations.
MAX_RETRIES is three; the fetch-and-extract loop body of
scrape_boots_product executes at most MAX_RETRIES times (every iteration
either returns a record or moves to the next retry, and the loop condition
admits at most MAX_RETRIES iterations); navigate_with_retry makes at most
max_retries plus one attempts, and every backoff sleep it performs between
attempts equals two to the attempt number times that attempt's random
factor. -/
theorem C6 :
    MAX_RETRIES = 3 ∧
    (∀ (outs : Nat → FetchOutcome) (pd : ProductData),
      scrapeIterCount outs MAX_RETRIES 0 pd ≤ MAX_RETRIES) ∧
    (∀ (ok : Nat → Bool) (maxR : Nat), navAttemptCount ok (maxR + 1) 0 ≤ maxR + 1) ∧
    (∀ (ok : Nat → Bool) (rand : Nat → ℚ) (maxR : Nat) (q : ℚ),
      q ∈ (navigate_with_retry ok rand maxR).2 →
      ∃ a, a < maxR ∧ ok a = false ∧ q = 2 ^ a * rand a) := by
  refine ⟨rfl, ?_, ?_, ?_⟩
  · intro outs pd
    exact scrapeIterCount_le outs MAX_RETRIES 0 pd
  · intro ok maxR
    exact navAttemptCount_le ok (maxR + 1) 0
  · intro ok rand maxR q hq
    obtain ⟨a, -, h2, h3, h4⟩ := navLoop_sleeps ok rand (maxR + 1) 0 q hq
    exact ⟨a, by omega, h3, h4⟩

theorem C6_witness :
    scrapeIterCount (fun _ => FetchOutcome.exn) MAX_RETRIES 0
        (initProduct [] []) ≤ MAX_RETRIES ∧
    navAttemptCount (fun _ => false) (1 + 1) 0 ≤ 1 + 1 ∧
    ∃ a, a < 1 ∧ (fun _ => false) a = false ∧
      (3 : ℚ) = 2 ^ a * (fun _ => (3 : ℚ)) a :=
  ⟨C6.2.1 _ _, C6.2.2.1 _ 1,
   C6.2.2.2 (fun _ => false) (fun _ => (3 : ℚ)) 1 3 (by
     have h : (navigate_with_retry (fun _ => false) (fun _ => (3 : ℚ)) 1).2 =
         [2 ^ 0 * 3] := rfl
     rw [h, List.mem_singleton]
     norm_num)⟩

/-- C8, counterexample: the per-record conversion of save_to_csv in
cosmetics_scraper.py writes the ingredients_list field — replacing a stored
two-element list by its comma-space join — while leaving ingredients_count
unwritten: on a record whose count field is not set the output row still
carries no count even though the list it writes parses back to two
elements, so not every code path that writes ingredients_list also writes
ingredients_count. -/
theorem C8_counterexample :
    (save_to_csv_row ⟨"u".data, none, none, none, none,
        some [("Aqua".data), ("Glycerin".data)], none, none, none, none,
        "t".data⟩).ingredients_list = some ("Aqua, Glycerin".data) ∧
    (save_to_csv_row ⟨"u".data, none, none, none, none,
        some [("Aqua".data), ("Glycerin".data)], none, none, none, none,
        "t".data⟩).ingredients_count = none ∧
    (jsonifyList ("Aqua, Glycerin".data)).length = 2 := by
  decide

theorem C8_witness :
    ((applyExtractions (initProduct ("u".data) ("t".data))
        ⟨none, none, some ("Aqua, Water".data), none, none, none, none⟩).ingredients_count =
      some (scraperCountList ("Aqua, Water".data)).length ∧
     (applyExtractions (initProduct ("u".data) ("t".data))
        ⟨none, none, some ("Aqua, Water".data), none, none, none, none⟩).ingredients_list =
      some (scraperCountList ("Aqua, Water".data))) ∧
    (batchRowStep (⟨some ("Aqua, Glycerin".data), none, none, ()⟩ : Row Unit) =
        ⟨some ("Aqua, Glycerin".data), none, none, ()⟩ ∨
      ∃ l, l ≠ [] ∧
        (batchRowStep (⟨some ("Aqua, Glycerin".data), none, none, ()⟩ :
          Row Unit)).ingredients_count = some l.length ∧
        (batchRowStep (⟨some ("Aqua, Glycerin".data), none, none, ()⟩ :
          Row Unit)).ingredients_list = some (joinCS l) ∧
        jsonifyList (joinCS l) = l) ∧
    (finalRowStep (⟨some ("Aqua, Glycerin".data), none, none, ()⟩ : Row Unit) =
        ⟨some ("Aqua, Glycerin".data), none, none, ()⟩ ∨
      ∃ l, l ≠ [] ∧
        (finalRowStep (⟨some ("Aqua, Glycerin".data), none, none, ()⟩ :
          Row Unit)).ingredients_count = some l.length ∧
        (finalRowStep (⟨some ("Aqua, Glycerin".data), none, none, ()⟩ :
          Row Unit)).ingredients_list = some (joinCS l) ∧
        jsonifyList (joinCS l) = l) ∧
    (fixDbRowStep (⟨some ("Aqua, Glycerin".data), none, none, ()⟩ : Row Unit) =
        ⟨some ("Aqua, Glycerin".data), none, none, ()⟩ ∨
      ∃ l, l ≠ [] ∧
        (fixDbRowStep (⟨some ("Aqua, Glycerin".data), none, none, ()⟩ :
          Row Unit)).ingredients_count = some l.length ∧
        (fixDbRowStep (⟨some ("Aqua, Glycerin".data), none, none, ()⟩ :
          Row Unit)).ingredients_list = some (joinCS l) ∧
        jsonifyList (joinCS l) = l) ∧
    (sampleRowStep (⟨some ("Aqua, Glycerin".data), none, none, ()⟩ : Row Unit) =
        ⟨some ("Aqua, Glycerin".data), none, none, ()⟩ ∨
      ∃ l, l ≠ [] ∧
        (sampleRowStep (⟨some ("Aqua, Glycerin".data), none, none, ()⟩ :
          Row Unit)).ingredients_count = some l.length ∧
        (sampleRowStep (⟨some ("Aqua, Glycerin".data), none, none, ()⟩ :
          Row Unit)).ingredients_list = some (joinCS l) ∧
        jsonifyList (joinCS l) = l) ∧
    ((progressFixupStep ⟨"u".data, none, none, some ("Aqua, Water".data),
        none, none, none, none, none, none, "t".data⟩).ingredients_count =
      some (scraperCountList ("Aqua, Water".data)).length ∧
     (progressFixupStep ⟨"u".data, none, none, some ("Aqua, Water".data),
        none, none, none, none, none, none, "t".data⟩).ingredients_list =
      some (scraperCountList ("Aqua, Water".data))) ∧
    ((save_to_csv_row ⟨"u".data, none, none, some ("Aqua, Water".data),
        none, none, none, none, none, none, "t".data⟩).ingredients_count =
      (⟨"u".data, none, none, some ("Aqua, Water".data),
        none, none, none, none, none, none, "t".data⟩ :
          ProductData).ingredients_count ∧
     (save_to_csv_row ⟨"u".data, none, none, some ("Aqua, Water".data),
        none, none, none, none, none, none, "t".data⟩).ingredients_list =
      (⟨"u".data, none, none, some ("Aqua, Water".data),
        none, none, none, none, none, none, "t".data⟩ :
          ProductData).ingredients_list.map joinCS) ∧
    ((save_to_csv_row ⟨"u".data, none, none, none, none,
        some [("Aqua".data), ("Glycerin".data)], none, none, none, none,
        "t".data⟩).ingredients_list =
      some (joinCS [("Aqua".data), ("Glycerin".data)]) ∧
     (jsonifyList (joinCS [("Aqua".data), ("Glycerin".data)])).length =
      ([("Aqua".data), ("Glycerin".data)] : List Str).length) ∧
    (initAdvProduct ("u".data) ("p".data) ("t".data)).ingredients_list = [] :=
  ⟨C8.1 (initProduct ("u".data) ("t".data))
      ⟨none, none, some ("Aqua, Water".data), none, none, none, none⟩
      ("Aqua, Water".data) rfl rfl,
   C8.2.1 Unit ⟨some ("Aqua, Glycerin".data), none, none, ()⟩,
   C8.2.2.1 Unit ⟨some ("Aqua, Glycerin".data), none, none, ()⟩,
   C8.2.2.2.1 Unit ⟨some ("Aqua, Glycerin".data), none, none, ()⟩,
   C8.2.2.2.2.1 Unit ⟨some ("Aqua, Glycerin".data), none, none, ()⟩,
   C8.2.2.2.2.2.1 ⟨"u".data, none, none, some ("Aqua, Water".data),
      none, none, none, none, none, none, "t".data⟩
      ("Aqua, Water".data) rfl rfl rfl,
   C8.2.2.2.2.2.2.1 ⟨"u".data, none, none, some ("Aqua, Water".data),
      none, none, none, none, none, none, "t".data⟩,
   C8.2.2.2.2.2.2.2.1 ⟨"u".data, none, none, none, none,
      some [("Aqua".data), ("Glycerin".data)], none, none, none, none,
      "t".data⟩ [("Aqua".data), ("Glycerin".data)] rfl (by decide),
   C8.2.2.2.2.2.2.2.2 ("u".data) ("p".data) ("t".data)⟩
